import Mathlib

/-!
Verification of the `papers` retrieval/conversion pipeline.

Shallow embedding of the repository `prasadbandodkar/papers`:
* `Papers.Functions` embeds `src/papers/functions.py` (cache-key sanitization),
* `Papers.Files` embeds `src/papers/files.py` (`copy_files`),
* `Papers.Entrez` embeds `src/papers/entrez.py` (`search`, `fetch`),
* `Papers.Doc` embeds `src/papers/doc.py` (`XmlToDoc` extraction/rendering),
* `Papers.Converter` embeds `src/papers/converter.py` (`XMLConverter`).

Strings that undergo character-level surgery in the source (filenames,
identifiers, cache keys) are modelled as `List Char`; this matches Python
strings character for character.  File systems are modelled as explicit
listings passed through the functions; remote endpoints are oracles
(`List Char → Bool`, page oracles) supplied as parameters, matching the
source's use of `requests` as an external effect.
-/

namespace Papers

/-! ## Generic string helpers (character-level models of Python str methods) -/

/-- Python `s.replace(c, r)` for a single-character pattern `c`:
replaces every occurrence of the character `c` by the string `r`. -/
def replaceChar (s : List Char) (c : Char) (r : List Char) : List Char :=
  s.bind (fun x => if x = c then r else [x])

/-- Python `s.strip(c)` for a single strip character: removes leading and
trailing occurrences of `c`. -/
def stripChar (s : List Char) (c : Char) : List Char :=
  ((s.dropWhile (· = c)).reverse.dropWhile (· = c)).reverse

/-- Recursion worker for `stripOcc`, structurally recursive on a fuel that
bounds the number of characters still to scan: every step either consumes
at least one character (`x :: xs` → `xs`) or drops a nonempty prefix, so
fuel equal to the input length is always enough; the fuel-exhausted case is
unreachable at the call site below. -/
def stripOccGo (pat : List Char) : Nat → List Char → List Char
  | _, [] => []
  | 0, l => l
  | fuel + 1, x :: xs =>
    if pat ≠ [] ∧ pat.isPrefixOf (x :: xs) then
      stripOccGo pat fuel ((x :: xs).drop pat.length)
    else x :: stripOccGo pat fuel xs

/-- Python `s.replace(pat, "")` for a multi-character pattern: removes all
(non-overlapping, scanning left to right) occurrences of `pat`.  When
`pat = []` this is the identity, matching Python `s.replace("", "")`
being `s` when the replacement is empty. -/
def stripOcc (pat l : List Char) : List Char :=
  stripOccGo pat l.length l

/-! ## `src/papers/functions.py` — `Functions.get_sanitized_filename` -/

namespace Functions

/-- The `unsafe_chars` replacement table of `Functions.get_sanitized_filename`
(`src/papers/functions.py`, lines 16-22), in Python dict insertion order.
`'` and `"` map to the empty string, every other listed character maps to
an underscore. -/
def unsafe_chars : List (Char × List Char) :=
  [('\x27', []), ('"', []), (' ', ['_']), (':', ['_']), ('[', ['_']), (']', ['_']),
   ('/', ['_']), ('\\', ['_']), ('?', ['_']), ('*', ['_']), ('<', ['_']), ('>', ['_']), ('|', ['_']),
   ('+', ['_']), ('=', ['_']), (',', ['_']), (';', ['_']), ('.', ['_']), ('&', ['_']), ('%', ['_']),
   ('$', ['_']), ('#', ['_']), ('@', ['_']), ('!', ['_']), ('^', ['_']), ('(', ['_']), (')', ['_']),
   ('\x7b', ['_']), ('\x7d', ['_']), ('~', ['_']), ('\x60', ['_'])]

/-- Sequentially apply the replacement table, in order, as the Python
`for char, replacement in unsafe_chars.items()` loop does. -/
def applyMap : List (Char × List Char) → List Char → List Char
  | [], s => s
  | (c, r) :: rest, s => applyMap rest (replaceChar s c r)

/-- The sanitized-and-truncated term: replacements applied, `_` stripped from
both ends, truncated to 100 characters (`src/papers/functions.py`, lines 24-35). -/
def sanitizedTrunc (filename : List Char) : List Char :=
  let sanitized := stripChar (applyMap unsafe_chars filename) '_'
  if sanitized.length > 100 then sanitized.take 100 else sanitized

/-- `Functions.get_sanitized_filename` (`src/papers/functions.py`, lines 9-39).
The MD5 hex digest comes from Python's `hashlib`, which is outside this
repository; it is passed in as the parameter `hash8` (the source takes the
first 8 hex characters of `md5(filename)`). -/
def get_sanitized_filename (hash8 : List Char → List Char) (filename : List Char) : List Char :=
  sanitizedTrunc filename ++ '_' :: hash8 filename

end Functions

/-! ## `src/papers/files.py` — `Files.copy_files` -/

namespace Files

/-- Result of a `Files.copy_files` run: the final contents of the caller's
`ids` list (mutated in place by the source), the ids examined by the loop in
order, the ids actually copied, and the ids reported missing. -/
structure CopyRes where
  ids : List String
  examined : List String
  copied : List String
  missing : List String
  deriving DecidableEq, Repr

/-- The source filename `{db}_{id}.{doc_type}` checked by `copy_files`
(`src/papers/files.py`, line 79). -/
def copyFileName (db dt id : String) : String :=
  db ++ "_" ++ id ++ "." ++ dt

/-- The CPython `for id in ids` loop of `Files.copy_files`
(`src/papers/files.py`, lines 78-84), modelled the way CPython executes a
`for` loop over a list that the body mutates: the iterator keeps an index
`i`, yields `ids[i]` while `i < len(ids)` and then increments `i`; the
body's `ids.remove(id)` removes the first occurrence of `id`, shifting
later elements one position left. -/
def copyLoop (ex : String → Bool) (db dt : String) : Nat → List String → Nat → CopyRes
  | 0, lst, _ => { ids := lst, examined := [], copied := [], missing := [] }
  | fuel + 1, lst, i =>
    if h : i < lst.length then
      let id := lst.get ⟨i, h⟩
      if ex (copyFileName db dt id) then
        let r := copyLoop ex db dt fuel lst (i + 1)
        { r with examined := id :: r.examined, copied := id :: r.copied }
      else
        let r := copyLoop ex db dt fuel (lst.erase id) (i + 1)
        { r with examined := id :: r.examined, missing := id :: r.missing }
    else
      { ids := lst, examined := [], copied := [], missing := [] }

/-- `Files.copy_files` (`src/papers/files.py`, lines 70-84).  `ex` is the
file-existence oracle for the source directory.  The fuel
`ids.length + 1` bounds the loop: each iteration increments the index and
never lengthens the list, so the loop tests the index at most
`len(ids) + 1` times; the fuel-exhausted case of `copyLoop` is therefore
unreachable. -/
def copy_files (ex : String → Bool) (db dt : String) (ids : List String) : CopyRes :=
  copyLoop ex db dt (ids.length + 1) ids 0

end Files

/-! ## `src/papers/entrez.py` — `Entrez.fetch` -/

namespace Entrez

/-- Recursion worker for `chunk_list`, structurally recursive on a fuel
bounding the number of chunks; each step drops at least one element
(`n ≥ 1`), so fuel equal to the input length is always enough and the
fuel-exhausted case is unreachable at the call site below. -/
def chunkGo (n : Nat) : Nat → List α → List (List α)
  | _, [] => []
  | 0, l => [l]
  | fuel + 1, x :: xs => ((x :: xs).take n) :: chunkGo n fuel ((x :: xs).drop n)

/-- `Entrez.chunk_list` (`src/papers/entrez.py`, line 43):
`[lst[i:i+chunk_size] for i in range(0, len(lst), chunk_size)]`.
Only called with `chunk_size = 100`; the `n = 0` case (where the Python
`range` would raise) is mapped to `[]`. -/
def chunk_list (lst : List α) (n : Nat) : List (List α) :=
  if n = 0 then [] else chunkGo n lst.length lst

/-- On-disk state seen by `Entrez.fetch`: the filenames present in
`fetch_dir`, and the failed-ids file (`None` when the file does not exist;
its lines are read into a Python `set`, so it is modelled as a `Finset`). -/
structure FetchSt where
  files : Finset (List Char)
  ledger : Option (Finset (List Char))
  deriving DecidableEq

/-- The raw-document filename `{db}_{id}.{retmode}` written by `Entrez.fetch`
(`src/papers/entrez.py`, line 351). -/
def fetchFileName (db retmode id : List Char) : List Char :=
  db ++ '_' :: (id ++ '.' :: retmode)

/-- One entry of the `downloaded_ids` set comprehension
(`src/papers/entrez.py`, line 326): `file.split('.')[0].replace(f'{db}_', '')`. -/
def parseFetchedFile (db : List Char) (f : List Char) : List Char :=
  stripOcc (db ++ ['_']) (f.takeWhile (· ≠ '.'))

/-- The `downloaded_ids` set (`src/papers/entrez.py`, lines 325-326): parse
every file of `fetch_dir` whose name ends in `.{retmode}`. -/
def downloadedIds (db retmode : List Char) (files : Finset (List Char)) : Finset (List Char) :=
  (files.filter (fun f => ('.' :: retmode).isSuffixOf f = true)).image (parseFetchedFile db)

/-- In-flight state of the fetch loop (`src/papers/entrez.py`, lines 345-393). -/
structure RunSt where
  files : Finset (List Char)
  failed : Finset (List Char)
  ledger : Option (Finset (List Char))
  processed : Nat
  deriving DecidableEq

/-- The body of the inner `for id in batch` loop (`src/papers/entrez.py`,
lines 346-387): one `efetch` call; on success the raw response is written to
`{db}_{id}.{retmode}` and, when retrying, the id is removed from
`failed_ids`; on failure the id is added to `failed_ids`. -/
def processId (db retmode : List Char) (retry_failed : Bool) (remote : List Char → Bool)
    (s : RunSt) (id : List Char) : RunSt :=
  if remote id then
    let s := { s with files := insert (fetchFileName db retmode id) s.files }
    let s := if retry_failed ∧ id ∈ s.failed then { s with failed := s.failed.erase id } else s
    { s with processed := s.processed + 1 }
  else
    { s with failed := insert id s.failed }

/-- One batch of the fetch loop plus the per-batch ledger update
(`src/papers/entrez.py`, lines 345-393): the failed-ids file is rewritten
with the full current failure set, but only when that set is nonempty
(`if failed_ids:`). -/
def processBatch (db retmode : List Char) (retry_failed : Bool) (remote : List Char → Bool)
    (s : RunSt) (batch : List (List Char)) : RunSt :=
  let s := batch.foldl (processId db retmode retry_failed remote) s
  if s.failed.Nonempty then { s with ledger := some s.failed } else s

/-- The main body of `Entrez.fetch` once the id list has been resolved and
found nonempty (`src/papers/entrez.py`, lines 308-408): read the failure
ledger, compute `downloaded_ids` and `ids_to_fetch`, process the batches. -/
def fetchRun (db retmode : List Char) (ids : List (List Char)) (retry_failed : Bool)
    (remote : List Char → Bool) (st : FetchSt) :
    FetchSt × List (List Char) × Finset (List Char) × Nat :=
  let failed0 := st.ledger.getD ∅
  let down := downloadedIds db retmode st.files
  let ids_to_fetch :=
    if retry_failed then ids.filter (fun id => decide (id ∈ failed0 ∧ id ∉ down))
    else ids.filter (fun id => decide (id ∉ down ∧ id ∉ failed0))
  let batched_ids := chunk_list ids_to_fetch 100
  let s := batched_ids.foldl (processBatch db retmode retry_failed remote)
    { files := st.files, failed := failed0, ledger := st.ledger, processed := 0 }
  ({ files := s.files, ledger := s.ledger }, ids_to_fetch, s.failed, s.processed)

/-- `Entrez.fetch` (`src/papers/entrez.py`, lines 284-408).

* `searchFile` is the contents of `self.search_results_file` (`none` when no
  prior search recorded one), consulted only when `ids` is empty;
* `remote` is the `efetch` oracle for this run (`true` = the HTTP call
  succeeds);
* the result carries the final disk state, the list of ids for which a
  remote fetch call was issued (in order), the final in-memory failure set,
  and `papers_processed`. -/
def fetch (db retmode : List Char) (searchFile : Option (List (List Char)))
    (idsArg : List (List Char)) (retry_failed : Bool) (remote : List Char → Bool)
    (st : FetchSt) : Except String (FetchSt × List (List Char) × Finset (List Char) × Nat) :=
  match idsArg with
  | [] =>
    match searchFile with
    | none => .error "No search results file or ids provided. Please run a search first."
    | some [] => .error "No papers to fetch. Please run a search first."
    | some (l :: ls) => .ok (fetchRun db retmode (l :: ls) retry_failed remote st)
  | a :: as => .ok (fetchRun db retmode (a :: as) retry_failed remote st)

/-! ### `Entrez.search` (`src/papers/entrez.py`, lines 112-281) -/

/-- One `esearch` page response, as the loop observes it: `err` models a
`requests`/parse exception, `ok ids webenv` models a parsed page with the
returned `Id` list and whether a `WebEnv`/`QueryKey` pair was present. -/
inductive PageResp where
  | err : PageResp
  | ok : List String → Bool → PageResp

/-- `Entrez.get_ids_from_search_file` (`src/papers/entrez.py`, lines 47-64):
returns the resumed id list together with the file contents left on disk
(`restart = true` deletes the file).  The read is modelled as succeeding. -/
def get_ids_from_search_file (file : Option (List String)) (restart : Bool) :
    List String × Option (List String) :=
  match file with
  | some lines => if restart then ([], none) else (lines, some lines)
  | none => ([], none)

/-- State of the main search loop (`src/papers/entrez.py`, lines 174-274). -/
structure LoopSt where
  allIds : List String
  fileLines : List String
  retstart : Nat
  webEnv : Bool
  chunk : Nat
  fails : Nat
  req : Nat
  deriving DecidableEq, Repr

/-- The `while retstart < total_papers` loop of `Entrez.search`
(`src/papers/entrez.py`, lines 182-274), driven by the page oracle `pages`
(indexed by the number of page requests issued so far).  `fuel` bounds the
number of iterations modelled; the source loop has no iteration cap and can
retry indefinitely, so running out of fuel returns the state reached. -/
def searchLoop (pages : Nat → PageResp) (total : Nat) : Nat → LoopSt → LoopSt
  | 0, s => s
  | fuel + 1, s =>
    if s.retstart < total then
      -- issue the request(s) for this iteration
      let (resp, s) :=
        if s.retstart ≥ 10000 then
          -- direct retrieval for large offsets
          (pages s.req, { s with req := s.req + 1 })
        else if ¬ s.webEnv then
          -- establish a WebEnv session; fall back to a plain request when
          -- the response carries no WebEnv/QueryKey
          match pages s.req with
          | .err => (.err, { s with req := s.req + 1 })
          | .ok ids we =>
            if we then (.ok ids we, { s with req := s.req + 1, webEnv := true })
            else (pages (s.req + 1), { s with req := s.req + 2 })
        else
          (pages s.req, { s with req := s.req + 1 })
      match resp with
      | .err =>
        -- `except` branch (lines 261-274)
        let fails := s.fails + 1
        if fails ≥ 3 then
          searchLoop pages total fuel
            { s with webEnv := false, fails := 0, chunk := max 100 (s.chunk / 2) }
        else
          searchLoop pages total fuel { s with fails := fails }
      | .ok ids _ =>
        if ids = [] then
          -- empty page (lines 224-244)
          let fails := s.fails + 1
          if fails ≥ 3 then
            let s := { s with webEnv := false, fails := 0 }
            let s := if s.retstart < 10000 then s else { s with chunk := max 100 (s.chunk / 2) }
            searchLoop pages total fuel s
          else
            searchLoop pages total fuel { s with fails := fails }
        else
          -- success (lines 246-259): extend ids, append to the file, advance
          searchLoop pages total fuel
            { s with fails := 0, allIds := s.allIds ++ ids, fileLines := s.fileLines ++ ids,
                     retstart := s.retstart + ids.length }
    else s

/-- Result of an `Entrez.search` run: the returned id list, the search file
left on disk, and the number of page requests issued by the main loop
(the initial `retmax = 1` count request is not included). -/
structure SearchOut where
  ids : List String
  file : Option (List String)
  pageReqs : Nat
  deriving DecidableEq, Repr

/-- `Entrez.search` (`src/papers/entrez.py`, lines 112-281), from the point
where the ids file has been resolved: resume or restart from `file`, obtain
the total from the initial `retmax = 1` request (`countResp`; `.error`
models an exception or missing `Count` being caught at lines 165-167), exit
early when the total is 0, otherwise run the paging loop. -/
def search (restart : Bool) (file : Option (List String)) (countResp : Except Unit Nat)
    (pages : Nat → PageResp) (fuel : Nat) : SearchOut :=
  let (allIds, file1) := get_ids_from_search_file file restart
  let retstart := allIds.length
  match countResp with
  | .error _ => { ids := allIds, file := file1, pageReqs := 0 }
  | .ok total =>
    if total = 0 then { ids := allIds, file := file1, pageReqs := 0 }
    else
      let s := searchLoop pages total fuel
        { allIds := allIds, fileLines := file1.getD [], retstart := retstart,
          webEnv := false, chunk := 5000, fails := 0, req := 0 }
      { ids := s.allIds, file := some s.fileLines, pageReqs := s.req }

end Entrez

/-! ## `src/papers/doc.py` — `XmlToDoc` -/

namespace Doc

/-- An `xml.etree.ElementTree` element: tag, attributes, text (the text
directly after the opening tag), tail (the text directly after the closing
tag, inside the parent), and child elements. -/
inductive Elem where
  | mk (tag : String) (attrs : List (String × String)) (text : Option String)
       (tail : Option String) (children : List Elem)

def Elem.tag : Elem → String
  | .mk t _ _ _ _ => t

def Elem.attrs : Elem → List (String × String)
  | .mk _ a _ _ _ => a

def Elem.text : Elem → Option String
  | .mk _ _ t _ _ => t

def Elem.tail : Elem → Option String
  | .mk _ _ _ t _ => t

def Elem.children : Elem → List Elem
  | .mk _ _ _ _ c => c

/-- `elem.get(key)`: first matching attribute, or `None`. -/
def Elem.getAttr (e : Elem) (k : String) : Option String :=
  e.attrs.lookup k

mutual

/-- All strict descendants of an element, in document (preorder) order —
the elements enumerated by the ElementTree path `".//tag"`. -/
def Elem.descendants : Elem → List Elem
  | .mk _ _ _ _ cs => descList cs

def descList : List Elem → List Elem
  | [] => []
  | c :: cs => c :: Elem.descendants c ++ descList cs

end

mutual

/-- `elem.itertext()`: the element's text, then recursively each child's
itertext followed by that child's tail; empty/missing strings are skipped
(Python's `if self.text:` truthiness). -/
def Elem.itertext : Elem → List String
  | .mk _ _ t _ cs =>
    (match t with
     | some s => if s = "" then [] else [s]
     | none => []) ++ itertextList cs

def itertextList : List Elem → List String
  | [] => []
  | c :: cs =>
    Elem.itertext c ++
    (match c.tail with
     | some s => if s = "" then [] else [s]
     | none => []) ++ itertextList cs

end

/-- `root.find(".//tag")`: first descendant with the given tag. -/
def findDesc (e : Elem) (t : String) : Option Elem :=
  e.descendants.find? (fun c => c.tag == t)

/-- `root.findall(".//tag")`. -/
def findAllDesc (e : Elem) (t : String) : List Elem :=
  e.descendants.filter (fun c => c.tag == t)

/-- `e.find("tag")`: first direct child with the given tag. -/
def findChild (e : Elem) (t : String) : Option Elem :=
  e.children.find? (fun c => c.tag == t)

/-- `e.findall("tag")`. -/
def findAllChild (e : Elem) (t : String) : List Elem :=
  e.children.filter (fun c => c.tag == t)

/-- `root.find(".//tag[@key='val']")`. -/
def findDescAttr (e : Elem) (t k v : String) : Option Elem :=
  e.descendants.find? (fun c => c.tag == t && c.getAttr k == some v)

/-- `root.findall(".//tag[@key='val']")`. -/
def findAllDescAttr (e : Elem) (t k v : String) : List Elem :=
  e.descendants.filter (fun c => c.tag == t && c.getAttr k == some v)

/-- `root.findall(".//parent/child")`: the `child`-tagged children of every
`parent`-tagged descendant, in document order. -/
def findAllDescChild (e : Elem) (par child : String) : List Elem :=
  (findAllDesc e par).bind (fun p => findAllChild p child)

/-- Python truthiness of an optional string (`None` and `""` are falsy). -/
def pyTruthy : Option String → Bool
  | some s => !(s == "")
  | none => false

/-- Rendering an optional string inside a Python f-string: `None` prints as
`"None"`. -/
def pyFStr : Option String → String
  | some s => s
  | none => "None"

/-- Python `s.strip()`: drop whitespace from both ends. -/
def pyStrip (s : String) : String :=
  String.mk (((s.toList.dropWhile Char.isWhitespace).reverse.dropWhile Char.isWhitespace).reverse)

/-- Python `s.split()` (no separator): split on whitespace runs, discarding
empty pieces. -/
def wordsAux : List Char → List Char → List (List Char)
  | [], acc => if acc.isEmpty then [] else [acc.reverse]
  | c :: cs, acc =>
    if c.isWhitespace then
      if acc.isEmpty then wordsAux cs [] else acc.reverse :: wordsAux cs []
    else wordsAux cs (c :: acc)

/-- `" ".join(text.split())` preceded by `strip()`: collapse all whitespace
runs to single spaces and trim the ends (`XmlToDoc._get_text_from_element`,
`src/papers/doc.py`, lines 16-27; the leading `strip()` is subsumed by the
split/join). -/
def normWS (s : String) : String :=
  String.intercalate " " ((wordsAux s.toList []).map String.mk)

/-- `XmlToDoc._get_text_from_element` (`src/papers/doc.py`, lines 16-27). -/
def getTextFromElement : Option Elem → String
  | none => ""
  | some el => normWS (String.join el.itertext)

/-- `"=" * n` and friends. -/
def repChar (c : Char) (n : Nat) : String :=
  String.mk (List.replicate n c)

/-- `XmlToDoc.get_title` (`src/papers/doc.py`, lines 192-195).  The result is
`none` when an `article-title` element exists but has `None` text (Python
returns `None` there), and `some ""` when the element is missing. -/
def get_title (root : Elem) : Option String :=
  match findDesc root "article-title" with
  | some el => el.text
  | none => some ""

/-- `XmlToDoc.get_journal_name` (`src/papers/doc.py`, lines 33-36). -/
def get_journal_name (root : Elem) : Option String :=
  match findDesc root "journal-title" with
  | some el => el.text
  | none => some ""

/-- `XmlToDoc.get_pmc_id` (`src/papers/doc.py`, lines 57-60). -/
def get_pmc_id (root : Elem) : Option String :=
  match findDescAttr root "article-id" "pub-id-type" "pmc" with
  | some el => el.text
  | none => some ""

/-- `XmlToDoc.get_publication_date` (`src/papers/doc.py`, lines 38-55).
Each of `year`/`month`/`day` that is present contributes its `.text` to
`date_parts`; an element present with `None` text puts `None` in the list
and the final `"-".join(date_parts)` raises `TypeError` — modelled as
`.error`. -/
def get_publication_date (root : Elem) : Except String String :=
  match findDesc root "pub-date" with
  | none => .ok ""
  | some pd =>
    let parts : List (Option String) :=
      ([findChild pd "year", findChild pd "month", findChild pd "day"].filterMap id).map Elem.text
    if parts.all Option.isSome then .ok (String.intercalate "-" (parts.filterMap id))
    else .error "TypeError: sequence item: expected str instance, NoneType found"

/-- One entry of the list returned by `XmlToDoc.get_author_info`: the Python
dict keys in insertion order.  `name` is `none` when the `name` element was
missing (no `"name"` key); `email`'s value is `none` for Python `None`;
`orcid` is `none` when the key is absent. -/
structure AuthorInfo where
  name : Option String
  affiliations : List String
  email : Option String
  is_corresponding : Bool
  orcid : Option (Option String)
  deriving DecidableEq, Repr

/-- Python dict assignment `d[k] = v` on an association list (last write
wins, insertion position preserved). -/
def dictSet (d : List (String × Option String)) (k : String) (v : Option String) :
    List (String × Option String) :=
  if (d.lookup k).isSome then d.map (fun p => if p.1 = k then (k, v) else p)
  else d ++ [(k, v)]

/-- `XmlToDoc.get_author_info` (`src/papers/doc.py`, lines 66-126). -/
def get_author_info (root : Elem) : List AuthorInfo :=
  -- corresponding-author info from author-notes (lines 74-80)
  let corresp_info : List (String × Option String) :=
    (findAllDescChild root "author-notes" "corresp").foldl
      (fun acc c =>
        match c.getAttr "id", findDesc c "email" with
        | some cid, some em => dictSet acc cid em.text
        | _, _ => acc) []
  (findAllDescAttr root "contrib" "contrib-type" "author").map (fun contrib =>
    -- name (lines 87-91)
    let name : Option String :=
      match findDesc contrib "name" with
      | none => none
      | some nameElem =>
        let giv := findChild nameElem "given-names"
        let sur := findChild nameElem "surname"
        some (pyStrip ((match giv with | some g => pyFStr g.text | none => "") ++ " " ++
               (match sur with | some s => pyFStr s.text | none => "")))
    -- affiliations (lines 94-104)
    let affs : List String :=
      (findAllDescAttr contrib "xref" "ref-type" "aff").foldl
        (fun acc xref =>
          match xref.getAttr "rid" with
          | some rid =>
            if rid ≠ "" then
              match findDescAttr root "aff" "id" rid with
              | some affEl => acc ++ [getTextFromElement (some affEl)]
              | none => acc
            else acc
          | none => acc) []
    -- corresponding-author email, with the for/else fallback (lines 107-117)
    let hit : Option (Option String) :=
      (findAllDescAttr contrib "xref" "ref-type" "corresp").findSome?
        (fun x =>
          match x.getAttr "rid" with
          | some rid => (corresp_info.lookup rid).map (fun em => em)
          | none => none)
    let (email, isCorr) :=
      match hit with
      | some em => (em, true)
      | none =>
        ((match findDesc contrib "email" with
          | some e => e.text
          | none => none), false)
    -- ORCID (lines 120-122)
    let orcid : Option (Option String) :=
      match findDescAttr contrib "contrib-id" "contrib-id-type" "orcid" with
      | some o => some o.text
      | none => none
    { name := name, affiliations := affs, email := email,
      is_corresponding := isCorr, orcid := orcid })

/-- `XmlToDoc.get_authors` (`src/papers/doc.py`, lines 128-155). -/
def get_authors (root : Elem) : String :=
  let authors := get_author_info root
  let parts : List String :=
    (authors.enum).foldl
      (fun acc p =>
        let i := p.1
        let author := p.2
        let acc := acc ++ ["Author " ++ toString (i + 1) ++ ":",
                           "Name: " ++ (match author.name with | some n => n | none => "N/A")]
        let acc := if author.affiliations ≠ [] then
            acc ++ ["Affiliations:"] ++ author.affiliations.map (fun a => "  - " ++ a)
          else acc
        let acc := if pyTruthy author.email then
            acc ++ ["Email: " ++ (author.email.getD "")]
          else acc
        let acc := match author.orcid with
          | some v => if pyTruthy v then acc ++ ["ORCID: " ++ v.getD ""] else acc
          | none => acc
        let acc := if author.is_corresponding then acc ++ ["(Corresponding Author)"] else acc
        acc ++ [""]) []
  String.intercalate "\n" parts

/-- `XmlToDoc.get_abstract` (`src/papers/doc.py`, lines 197-203). -/
def get_abstract (root : Elem) : String :=
  String.intercalate "\n"
    ((findAllDesc root "abstract").bind
      (fun a => (findAllDesc a "p").map (fun p => getTextFromElement (some p))))

/-- Python `sections[title] += "\n" + joined` / `sections[title] = joined`
on the ordered body dict. -/
def bodyAdd (d : List (String × String)) (k v : String) : List (String × String) :=
  if (d.lookup k).isSome then
    d.map (fun p => if p.1 = k then (p.1, p.2 ++ "\n" ++ v) else p)
  else d ++ [(k, v)]

/-- `XmlToDoc.get_body` (`src/papers/doc.py`, lines 205-234). -/
def get_body (root : Elem) : List (String × String) :=
  match findDesc root "body" with
  | none => []
  | some body =>
    (findAllDesc body "sec").foldl
      (fun dict sec =>
        let sectionTitle :=
          match findChild sec "title" with
          | some t => getTextFromElement (some t)
          | none => "Untitled Section"
        let paragraphs :=
          ((findAllChild sec "p").map (fun p => getTextFromElement (some p))).filterMap
            (fun t => if pyStrip t = "" then none else some (pyStrip t))
        if paragraphs = [] then dict
        else bodyAdd dict sectionTitle (String.intercalate "\n" paragraphs)) []

/-- One reference tuple `(index, pmid, authors, title, journal, year)`
returned by `XmlToDoc.get_references`.  Fields that hold a Python value that
may be `None` are `Option String`. -/
structure RefInfo where
  index : Nat
  pmid : Option String
  authors : String
  title : String
  journal : Option String
  year : Option String
  deriving DecidableEq, Repr

/-- `XmlToDoc.get_references` (`src/papers/doc.py`, lines 240-299).  Note the
source's `ref.find(".//element-citation") or ref.find(".//mixed-citation")`:
ElementTree elements are falsy when they have no children, so a childless
`element-citation` falls through to `mixed-citation`. -/
def get_references (root : Elem) : List RefInfo :=
  match findDesc root "ref-list" with
  | none => []
  | some rl =>
    ((findAllChild rl "ref").enum).foldl
      (fun acc p =>
        let index := p.1
        let ref := p.2
        let citation :=
          match findDesc ref "element-citation" with
          | some ec => if ec.children.isEmpty then findDesc ref "mixed-citation" else some ec
          | none => findDesc ref "mixed-citation"
        match citation with
        | none => acc
        | some cit =>
          let pmid :=
            match findDescAttr cit "pub-id" "pub-id-type" "pmid" with
            | some p => p.text
            | none => some "N/A"
          let authors : List String :=
            match findDesc cit "person-group" with
            | some pg =>
              let names := (findAllDesc pg "name").foldl
                (fun a n =>
                  match findChild n "surname", findChild n "given-names" with
                  | some s, some g => a ++ [pyFStr s.text ++ " " ++ pyFStr g.text]
                  | _, _ => a) []
              if (findChild pg "etal").isSome then names ++ ["et al"] else names
            | none =>
              let names := (findAllChild cit "name").foldl
                (fun a n =>
                  match findChild n "surname", findChild n "given-names" with
                  | some s, some g => a ++ [pyFStr s.text ++ " " ++ pyFStr g.text]
                  | _, _ => a) []
              if (findChild cit "etal").isSome then names ++ ["et al."] else names
          let author_text := String.intercalate ", " authors
          let title :=
            match findChild cit "article-title" with
            | some t => getTextFromElement (some t)
            | none => ""
          let journal :=
            match findChild cit "source" with
            | some s => s.text
            | none => some ""
          let year :=
            match findChild cit "year" with
            | some y => y.text
            | none => some ""
          acc ++ [({ index := index, pmid := pmid, authors := author_text, title := title,
                     journal := journal, year := year } : RefInfo)]) []

/-- The per-reference line `[{index}] {pmid}. {authors}. {title}. {journal} ({year})`. -/
def refLine (r : RefInfo) : String :=
  "[" ++ toString r.index ++ "] " ++ pyFStr r.pmid ++ ". " ++ r.authors ++ ". " ++
    r.title ++ ". " ++ pyFStr r.journal ++ " (" ++ pyFStr r.year ++ ")"

/-- `XmlToDoc.references_to_text` (`src/papers/doc.py`, lines 301-311). -/
def references_to_text (root : Elem) : String :=
  let references := get_references root
  let parts : List String :=
    if references ≠ [] then ["\nREFERENCES", repChar '=' 10] ++ references.map refLine
    else []
  String.intercalate "\n" parts

/-- `XmlToDoc.paper_to_text` (`src/papers/doc.py`, lines 317-349). -/
def paper_to_text (root : Elem) (include_authors : Bool := true)
    (include_references : Bool := true) : String :=
  let parts : List String := []
  let title := get_title root
  let parts := if pyTruthy title then parts ++ ["TITLE", repChar '=' 5, title.getD "", "\n"]
    else parts
  let authors := get_authors root
  let parts := if include_authors ∧ authors ≠ "" then
      parts ++ ["AUTHORS", repChar '=' 7, authors, "\n"]
    else parts
  let abstract := get_abstract root
  let parts := if abstract ≠ "" then parts ++ ["ABSTRACT", repChar '=' 8, abstract, "\n"]
    else parts
  let parts := parts ++ ["BODY", repChar '=' 4]
  let parts := parts ++ (get_body root).bind
    (fun p => ["\n" ++ p.1, repChar '-' p.1.length, p.2])
  let references := get_references root
  let parts := if include_references ∧ references ≠ [] then
      parts ++ ["\nREFERENCES", repChar '=' 10] ++ references.map refLine
    else parts
  String.intercalate "\n" parts

/-- `XmlToDoc.paper_to_text_with_metadata` (`src/papers/doc.py`, lines 351-353). -/
def paper_to_text_with_metadata (root : Elem) : String :=
  paper_to_text root true true

/-- `XmlToDoc.paper_to_text_without_metadata` (`src/papers/doc.py`, lines 355-357). -/
def paper_to_text_without_metadata (root : Elem) : String :=
  paper_to_text root false false

/-- `XmlToDoc.authors_to_text` (`src/papers/doc.py`, lines 157-186); calls
`get_publication_date`, so it can raise. -/
def authors_to_text (root : Elem) : Except String String := do
  let parts : List String := []
  let pmc_id := get_pmc_id root
  let parts := if pyTruthy pmc_id then
      parts ++ ["PMC ID", repChar '=' 6, "PMC" ++ pmc_id.getD "", "\n"]
    else parts
  let title := get_title root
  let parts := if pyTruthy title then parts ++ ["TITLE", repChar '=' 5, title.getD "", "\n"]
    else parts
  let journal := get_journal_name root
  let parts := if pyTruthy journal then
      parts ++ ["JOURNAL", repChar '=' 7, journal.getD "", "\n"]
    else parts
  let pub_date ← get_publication_date root
  let parts := if pub_date ≠ "" then
      parts ++ ["PUBLICATION DATE", repChar '=' 15, pub_date, "\n"]
    else parts
  let authors := get_authors root
  let parts := if authors ≠ "" then parts ++ ["AUTHORS", repChar '=' 7, authors, "\n"]
    else parts
  pure (String.intercalate "\n" parts)

/-! ### JSON rendering -/

/-- JSON values as produced by the `*_to_json` methods. -/
inductive Json where
  | null : Json
  | bool : Bool → Json
  | str : String → Json
  | num : Int → Json
  | arr : List Json → Json
  | obj : List (String × Json) → Json

/-- First value bound to a key in a JSON object. -/
def jlookup (k : String) : List (String × Json) → Option Json
  | [] => none
  | (k', v) :: r => if k' = k then some v else jlookup k r

/-- Fuelled JSON equality with object keys compared order-insensitively
(arrays stay ordered); this is the "key order may vary, values must match
exactly" comparison of the spec. -/
def jsonEquivF : Nat → Json → Json → Bool
  | 0, _, _ => false
  | _ + 1, .null, .null => true
  | _ + 1, .bool a, .bool b => a == b
  | _ + 1, .str a, .str b => a == b
  | _ + 1, .num a, .num b => a == b
  | n + 1, .arr xs, .arr ys =>
    xs.length == ys.length && (List.zip xs ys).all (fun p => jsonEquivF n p.1 p.2)
  | n + 1, .obj xs, .obj ys =>
    xs.all (fun p => match jlookup p.1 ys with
      | some w => jsonEquivF n p.2 w
      | none => false) &&
    ys.all (fun p => (jlookup p.1 xs).isSome)
  | _ + 1, _, _ => false

/-- A Python value that is `None` or a string, as JSON. -/
def optStrJson : Option String → Json
  | none => .null
  | some s => .str s

/-- One author dict as JSON, with the dict's insertion-order keys. -/
def authorJson (a : AuthorInfo) : Json :=
  .obj ((match a.name with | some n => [("name", Json.str n)] | none => []) ++
        [("affiliations", Json.arr (a.affiliations.map Json.str)),
         ("email", optStrJson a.email),
         ("is_corresponding", Json.bool a.is_corresponding)] ++
        (match a.orcid with | some v => [("orcid", optStrJson v)] | none => []))

/-- One reference dict as JSON (`src/papers/doc.py`, lines 388-396). -/
def refJson (r : RefInfo) : Json :=
  .obj [("index", Json.num (Int.ofNat r.index)),
        ("pmid", optStrJson r.pmid),
        ("authors", Json.str r.authors),
        ("title", Json.str r.title),
        ("journal", optStrJson r.journal),
        ("year", optStrJson r.year)]

/-- `XmlToDoc.paper_to_json` (`src/papers/doc.py`, lines 363-399); calls
`get_publication_date`, so it can raise. -/
def paper_to_json (root : Elem) (include_authors : Bool := true)
    (include_references : Bool := true) : Except String Json := do
  let pd ← get_publication_date root
  pure (.obj
    ([("title", optStrJson (get_title root)),
      ("journal", optStrJson (get_journal_name root)),
      ("publication_date", Json.str pd),
      ("pmc_id", optStrJson (get_pmc_id root))] ++
     (if include_authors then [("authors", Json.arr ((get_author_info root).map authorJson))]
      else []) ++
     [("abstract", Json.str (get_abstract root)),
      ("body", Json.obj ((get_body root).map (fun p => (p.1, Json.str p.2))))] ++
     (if include_references then
        [("references", Json.arr ((get_references root).map refJson))]
      else [])))

/-- `XmlToDoc.authors_to_json` (`src/papers/doc.py`, lines 409-418). -/
def authors_to_json (root : Elem) : Except String Json := do
  let pd ← get_publication_date root
  pure (.obj
    [("pmc_id", optStrJson (get_pmc_id root)),
     ("title", optStrJson (get_title root)),
     ("journal", optStrJson (get_journal_name root)),
     ("publication_date", Json.str pd),
     ("authors", Json.arr ((get_author_info root).map authorJson))])

/-- `XmlToDoc.references_to_json` (`src/papers/doc.py`, lines 420-432). -/
def references_to_json (root : Elem) : Json :=
  .obj [("references", Json.arr ((get_references root).map refJson))]


/-- Build an element with no tail text. -/
def el (tag : String) (attrs : List (String × String)) (text : Option String)
    (children : List Elem) : Elem :=
  .mk tag attrs text none children

/-- The minimal synthetic document of the claim: title `"T1"`, one author
`A B` with no affiliations, abstract `"Abs."`, one body section
`Intro ↦ Hello.`, no references. -/
def synthDoc : Elem :=
  el "article" [] none
    [el "article-title" [] (some "T1") [],
     el "contrib" [("contrib-type", "author")] none
       [el "name" [] none
         [el "given-names" [] (some "A") [], el "surname" [] (some "B") []]],
     el "abstract" [] none [el "p" [] (some "Abs.") []],
     el "body" [] none
       [el "sec" [] none
         [el "title" [] (some "Intro") [], el "p" [] (some "Hello.") []]]]

/-- Drop everything up to and including the first occurrence of `pat`;
`none` when `pat` does not occur. -/
def afterFirst : List Char → List Char → Option (List Char)
  | s, pat =>
    if pat.isPrefixOf s then some (s.drop pat.length)
    else
      match s with
      | [] => none
      | _ :: xs => afterFirst xs pat

/-- `pats` occur in `s` in the given order (each search resuming after the
previous match). -/
def containsInOrder (s : String) : List String → Bool
  | [] => true
  | pat :: pats =>
    match afterFirst s.toList pat.toList with
    | some r => containsInOrder (String.mk r) pats
    | none => false

/-- The JSON object the claim asserts `paper_to_json` produces for the
synthetic document. -/
def claimedJsonC4 : Json :=
  .obj [("title", .str "T1"), ("journal", .str ""), ("publication_date", .str ""),
        ("pmc_id", .str ""),
        ("authors", .arr [.obj [("name", .str "A B"), ("affiliations", .arr [])]]),
        ("abstract", .str "Abs."), ("body", .obj [("Intro", .str "Hello.")]),
        ("references", .arr [])]

/-- What `paper_to_json` actually produces for the synthetic document: the
author object additionally carries `email: null` and
`is_corresponding: false` (`get_author_info` always inserts both keys). -/
def actualJsonC4 : Json :=
  .obj [("title", .str "T1"), ("journal", .str ""), ("publication_date", .str ""),
        ("pmc_id", .str ""),
        ("authors", .arr [.obj [("name", .str "A B"), ("affiliations", .arr []),
                                ("email", .null), ("is_corresponding", .bool false)]]),
        ("abstract", .str "Abs."), ("body", .obj [("Intro", .str "Hello.")]),
        ("references", .arr [])]


end Doc

/-! ## `src/papers/converter.py` — `XMLConverter` -/

namespace Converter

open Doc

/-- `pathlib.Path(name).stem`: the filename without its last suffix.  A name
with no dot, or whose only dot is the leading character (a dotfile), is its
own stem. -/
def stemOf (n : List Char) : List Char :=
  match n.reverse.dropWhile (· ≠ '.') with
  | [] => n
  | [_] => n
  | pre => pre.tail.reverse

/-- `dir.glob("*." ++ ext)` membership: fnmatch `*` matches anything, so a
name matches exactly when it ends in `"." ++ ext`. -/
def globExt (ext : List Char) (n : List Char) : Bool :=
  ('.' :: ext).isSuffixOf n

/-- Which output directory a conversion targets. -/
inductive DirKind where
  | paper
  | author
  | references
  deriving DecidableEq, Repr

/-- On-disk state seen by `XMLConverter`: the XML source directory (names
only) and the three output directories as `(name, contents)` listings. -/
structure ConvSt where
  xmlDir : List (List Char)
  paperDir : List (List Char × String)
  authorDir : List (List Char × String)
  referencesDir : List (List Char × String)
  deriving DecidableEq, Repr

def ConvSt.dir (st : ConvSt) : DirKind → List (List Char × String)
  | .paper => st.paperDir
  | .author => st.authorDir
  | .references => st.referencesDir

def ConvSt.setDir (st : ConvSt) : DirKind → List (List Char × String) → ConvSt
  | .paper, d => { st with paperDir := d }
  | .author, d => { st with authorDir := d }
  | .references, d => { st with referencesDir := d }

/-- `open(filename, "w")` + write: create the file with the given contents,
or truncate-and-replace an existing file of the same name. -/
def writeEntry (dir : List (List Char × String)) (fname : List Char) (content : String) :
    List (List Char × String) :=
  if (dir.map Prod.fst).contains fname then
    dir.map (fun p => if p.1 = fname then (p.1, content) else p)
  else dir ++ [(fname, content)]

def ConvSt.write (st : ConvSt) (d : DirKind) (fname : List Char) (content : String) : ConvSt :=
  st.setDir d (writeEntry (st.dir d) fname content)

/-- `XMLConverter._get_pending_files` (`src/papers/converter.py`, lines
38-70).  For a `doc_type` other than `paper`/`author`/`references` the local
`output_dir` is never assigned, and its first use (`output_dir.glob`) raises
`UnboundLocalError` — modelled as `.error`, which happens before any file is
touched in both the `remove_existing` and the normal branch. -/
def _get_pending_files (st : ConvSt) (format : String) (remove_existing : Bool)
    (doc_type : String) : Except String (ConvSt × List (List Char)) :=
  let xml_files := st.xmlDir.filter (globExt "xml".toList)
  let outDir : Option DirKind :=
    if doc_type = "paper" then some .paper
    else if doc_type = "author" then some .author
    else if doc_type = "references" then some .references
    else none
  match outDir with
  | none =>
    .error "UnboundLocalError: local variable 'output_dir' referenced before assignment"
  | some d =>
    if remove_existing then
      -- delete all files with matching format in the output directory
      let st := st.setDir d ((st.dir d).filter (fun p => !globExt format.toList p.1))
      .ok (st, xml_files)
    else
      let existing_stems :=
        (((st.dir d).map Prod.fst).filter (globExt format.toList)).map stemOf
      .ok (st, xml_files.filter (fun f => !existing_stems.contains (stemOf f)))

/-- `XmlToDoc.save_to_file` (`src/papers/doc.py`, lines 457-483) for an
already-parsed document, writing into directory `d` of the state.

For `format = "txt"` the source opens the output file (creating/truncating
it) *before* evaluating the renderer, so a renderer exception leaves an
empty file behind — visible in the `author` case, whose renderer
`authors_to_text` can raise.  For `format = "json"` the data is computed
before the file is opened (`save_to_json_file`, lines 434-452), so a raise
leaves nothing.  Unknown `doc_type`/`format` values fall through without
writing and without error.  Returns the new state and `some err` when the
renderer raised. -/
def save_to_file (st : ConvSt) (d : DirKind) (fname : List Char) (doc_type format : String)
    (doc : Elem) : ConvSt × Option String :=
  if format = "txt" then
    if doc_type = "paper" then (st.write d fname (paper_to_text doc), none)
    else if doc_type = "paper_with_metadata" then
      (st.write d fname (paper_to_text_with_metadata doc), none)
    else if doc_type = "paper_without_metadata" then
      (st.write d fname (paper_to_text_without_metadata doc), none)
    else if doc_type = "author" then
      let st := st.write d fname ""        -- open("w") truncates first
      match authors_to_text doc with
      | .ok s => (st.write d fname s, none)
      | .error e => (st, some e)
    else if doc_type = "references" then (st.write d fname (references_to_text doc), none)
    else (st, none)
  else if format = "json" then
    let data : Except String (Option Json) :=
      if doc_type = "paper" then (paper_to_json doc).map some
      else if doc_type = "paper_with_metadata" then (paper_to_json doc true true).map some
      else if doc_type = "paper_without_metadata" then (paper_to_json doc false false).map some
      else if doc_type = "author" then (authors_to_json doc).map some
      else if doc_type = "references" then .ok (some (references_to_json doc))
      else .ok none
    match data with
    | .error e => (st, some e)
    | .ok none => (st, none)
    | .ok (some _) => (st.write d fname "json", none)  -- serialized dump; only presence is claimed
  else (st, none)

/-- The body of the `for xml_file in pending_files` loop of
`XMLConverter.convert_all` (`src/papers/converter.py`, lines 113-125):
parse the file, pick the output filename by `doc_type`, save.  Any raise is
caught by the `except` and logged; `some err` records it.  A `doc_type`
outside the five known values leaves `filename` unassigned and raises
`UnboundLocalError` inside the `try`. -/
def convertOne (parse : List Char → Except String Elem) (format doc_type : String)
    (st : ConvSt) (f : List Char) : ConvSt × Option String :=
  match parse f with
  | .error e => (st, some e)
  | .ok doc =>
    let dest : Option DirKind :=
      if doc_type = "paper" ∨ doc_type = "paper_with_metadata" ∨
         doc_type = "paper_without_metadata" then some .paper
      else if doc_type = "author" then some .author
      else if doc_type = "references" then some .references
      else none
    match dest with
    | none => (st, some "UnboundLocalError: local variable 'filename' referenced before assignment")
    | some d => save_to_file st d (stemOf f ++ '.' :: format.toList) doc_type format doc

/-- The output directory a `doc_type` among the five known values writes to
(the three paper variants share the paper directory). -/
def convDir (doc_type : String) : DirKind :=
  if doc_type = "author" then .author
  else if doc_type = "references" then .references
  else .paper

/-- The pending set computed against the paper directory: source XML stems
without a matching artifact stem of the requested format in `paperDir`. -/
def paperPending (st : ConvSt) (format : String) : List (List Char) :=
  (st.xmlDir.filter (globExt "xml".toList)).filter
    (fun f => !((((st.paperDir.map Prod.fst).filter (globExt format.toList)).map stemOf).contains
      (stemOf f)))

/-- The body of the `for xml_file in pending_files` loop of `convert_all`
as a fold step: thread the state, count a caught error. -/
def convStep (parse : List Char → Except String Doc.Elem) (format doc_type : String)
    (acc : ConvSt × Nat) (f : List Char) : ConvSt × Nat :=
  let s := convertOne parse format doc_type acc.1 f
  (s.1, acc.2 + if s.2.isSome then 1 else 0)

/-- The pending set computed against directory `d`: source XML stems without
a matching artifact stem of the requested format in `d` (the body of
`_get_pending_files` once the output directory is resolved). -/
def pendingFor (st : ConvSt) (format : String) (d : DirKind) : List (List Char) :=
  (st.xmlDir.filter (globExt "xml".toList)).filter
    (fun f => !((((st.dir d).map Prod.fst).filter (globExt format.toList)).map stemOf).contains
      (stemOf f))

/-- Result of a `convert_all` run: final state, number of pending files
processed, number of per-file errors caught. -/
structure ConvRes where
  state : ConvSt
  attempted : Nat
  errors : Nat
  deriving DecidableEq, Repr

/-- `XMLConverter.convert_all` (`src/papers/converter.py`, lines 73-136).
`parse` is the `XmlToDoc` constructor: XML parsing of the source file,
external to this module's claims, supplied as an oracle from filename to
parsed tree or parse error. -/
def convert_all (parse : List Char → Except String Elem) (st : ConvSt) (format : String)
    (doc_type : String) (remove_existing : Bool) : Except String ConvRes :=
  let doc_type_check :=
    if doc_type = "paper_with_metadata" ∨ doc_type = "paper_without_metadata" ∨
       doc_type = "paper" then "paper"
    else doc_type
  match _get_pending_files st format remove_existing doc_type_check with
  | .error e => .error e
  | .ok (st, pending_files) =>
    let r := pending_files.foldl (convStep parse format doc_type) (st, 0)
    .ok { state := r.1, attempted := pending_files.length, errors := r.2 }

/-- A minimal parsed document: one `article-title`. -/
def c3Doc : Elem := el "article" [] none [el "article-title" [] (some "T1") []]

/-- A one-file source state: `a.xml` present, all output directories empty. -/
def c3St0 : ConvSt :=
  { xmlDir := ["a.xml".toList], paperDir := [], authorDir := [], referencesDir := [] }

/-- The state after one successful `txt`/`paper` conversion of `a.xml` from
`c3St0`: the artifact `a.txt` holds the rendered text. -/
def c3St1 : ConvSt :=
  { xmlDir := ["a.xml".toList],
    paperDir := [("a.txt".toList, paper_to_text c3Doc)],
    authorDir := [], referencesDir := [] }

end Converter

/-! ## Helper lemmas -/

/-- Characters of `replaceChar s c r` come from `r` or from `s`. -/
theorem mem_replaceChar {x : Char} {s : List Char} {c : Char} {r : List Char}
    (hx : x ∈ replaceChar s c r) : x ∈ r ∨ x ∈ s := by
  unfold replaceChar at hx
  rcases List.mem_bind.1 hx with ⟨y, hy, hxy⟩
  by_cases h : y = c
  · simp [h] at hxy
    exact Or.inl hxy
  · simp [h] at hxy
    exact Or.inr (hxy ▸ hy)

/-- Characters survive `stripChar` only if they were in the input. -/
theorem mem_stripChar {x : Char} {s : List Char} {c : Char}
    (hx : x ∈ stripChar s c) : x ∈ s := by
  unfold stripChar at hx
  rw [List.mem_reverse] at hx
  have h2 := (List.dropWhile_sublist (· = c)).subset hx
  rw [List.mem_reverse] at h2
  exact (List.dropWhile_sublist (· = c)).subset h2

/-- `stripChar` does not lengthen a list. -/
theorem length_stripChar_le (s : List Char) (c : Char) :
    (stripChar s c).length ≤ s.length := by
  unfold stripChar
  have h1 := (List.dropWhile_sublist (l := (s.dropWhile (· = c)).reverse) (· = c)).length_le
  have h2 := (List.dropWhile_sublist (l := s) (· = c)).length_le
  simp only [List.length_reverse] at h1 ⊢
  omega

namespace Functions

/-- Characters of `applyMap m s` are `'_'` or characters of `s`, provided
every replacement string in `m` consists of underscores. -/
theorem mem_applyMap {m : List (Char × List Char)} {s : List Char} {x : Char}
    (hm : ∀ p ∈ m, ∀ c ∈ p.2, c = '_') (hx : x ∈ applyMap m s) : x = '_' ∨ x ∈ s := by
  induction m generalizing s with
  | nil => exact Or.inr hx
  | cons p rest ih =>
    have hrest : ∀ q ∈ rest, ∀ c ∈ q.2, c = '_' := fun q hq => hm q (List.mem_cons_of_mem _ hq)
    rcases ih hrest (s := replaceChar s p.1 p.2) hx with h | h
    · exact Or.inl h
    · rcases mem_replaceChar h with h' | h'
      · exact Or.inl (hm p (List.mem_cons_self _ _) x h')
      · exact Or.inr h'

/-- The truncated sanitized term has at most 100 characters. -/
theorem length_sanitizedTrunc_le (q : List Char) : (sanitizedTrunc q).length ≤ 100 := by
  unfold sanitizedTrunc
  by_cases h : (stripChar (applyMap unsafe_chars q) '_').length > 100
  · simp [h]
  · simp [h]
    omega

/-- Characters of the truncated sanitized term are underscores or characters
of the query. -/
theorem mem_sanitizedTrunc {q : List Char} {x : Char} (hx : x ∈ sanitizedTrunc q) :
    x = '_' ∨ x ∈ q := by
  have hx' : x ∈ stripChar (applyMap unsafe_chars q) '_' := by
    unfold sanitizedTrunc at hx
    by_cases h : (stripChar (applyMap unsafe_chars q) '_').length > 100
    · simp [h] at hx
      exact List.take_subset _ _ hx
    · simpa [h] using hx
  exact mem_applyMap (by decide) (mem_stripChar hx')

end Functions

/-! ## Claim C5 — cache-key sanitization -/

/-- C5, claim as stated, refuted: the claim asserts the cache key never
contains a character outside `[A-Za-z0-9_]`, but `get_sanitized_filename`
only replaces its fixed `unsafe_chars` table; `'-'` is not in the table and
passes through.  For the query `"a-b"` (with an 8-hex-character hash suffix,
here `"00000000"`) the key is `"a-b_00000000"`, which contains `'-'`. -/
theorem C5_counterexample :
    Functions.get_sanitized_filename (fun _ => "00000000".toList) "a-b".toList
      = "a-b_00000000".toList ∧
    (Functions.get_sanitized_filename (fun _ => "00000000".toList) "a-b".toList).all
      (fun c => c.isAlphanum || c = '_') = false := by
  constructor
  · decide
  · decide

/-- C5 (amended): for every query, the cache key has length at most
109 = 100 + 1 + 8 (when the hash suffix has 8 characters); every character
of the key is an underscore, a character of the query, or a character of the
hash suffix (characters not in the `unsafe_chars` table — such as `'-'` —
pass through, so the `[A-Za-z0-9_]` guarantee of the original claim does not
hold); and two queries whose sanitized forms truncate to the same
100-character prefix still yield distinct keys whenever their hash suffixes
differ. -/
theorem C5_key_bounds_and_distinctness (hash8 : List Char → List Char) (q q1 q2 : List Char)
    (hlen : (hash8 q).length = 8) :
    (Functions.get_sanitized_filename hash8 q).length ≤ 109 ∧
    (∀ c ∈ Functions.get_sanitized_filename hash8 q, c = '_' ∨ c ∈ q ∨ c ∈ hash8 q) ∧
    (Functions.sanitizedTrunc q1 = Functions.sanitizedTrunc q2 → hash8 q1 ≠ hash8 q2 →
      Functions.get_sanitized_filename hash8 q1 ≠ Functions.get_sanitized_filename hash8 q2) := by
  refine ⟨?_, ?_, ?_⟩
  · unfold Functions.get_sanitized_filename
    have h1 := Functions.length_sanitizedTrunc_le q
    simp only [List.length_append, List.length_cons, hlen]
    omega
  · intro c hc
    unfold Functions.get_sanitized_filename at hc
    rcases List.mem_append.1 hc with h | h
    · rcases Functions.mem_sanitizedTrunc h with h' | h'
      · exact Or.inl h'
      · exact Or.inr (Or.inl h')
    · rcases List.mem_cons.1 h with h' | h'
      · exact Or.inl h'
      · exact Or.inr (Or.inr h')
  · intro htr hne hkey
    unfold Functions.get_sanitized_filename at hkey
    rw [htr] at hkey
    have := List.append_cancel_left hkey
    simp only [List.cons.injEq] at this
    exact hne this.2

/-- Witness for C5: bounds at the query `"x"` and key distinctness for the
queries `"a'"` and `"a\""`, which sanitize to the same prefix `"a"` but hash
differently. -/
theorem C5_key_bounds_and_distinctness_witness :
    (Functions.get_sanitized_filename (fun _ => "00000000".toList) "x".toList).length ≤ 109 ∧
    Functions.get_sanitized_filename
        (fun s => if s = "a\x27".toList then "00000000".toList else "11111111".toList)
        "a\x27".toList ≠
      Functions.get_sanitized_filename
        (fun s => if s = "a\x27".toList then "00000000".toList else "11111111".toList)
        "a\"".toList := by
  constructor
  · exact (C5_key_bounds_and_distinctness (fun _ => "00000000".toList) "x".toList
      "x".toList "x".toList (by decide)).1
  · exact (C5_key_bounds_and_distinctness
      (fun s => if s = "a\x27".toList then "00000000".toList else "11111111".toList)
      "a\x27".toList "a\x27".toList "a\"".toList (by decide)).2.2 (by decide) (by decide)

/-! ## Claim C10 — `copy_files` in-place mutation -/

namespace Files

/-- The final list is a subset of the loop's input list. -/
theorem copyLoop_ids_subset (ex : String → Bool) (db dt : String) :
    ∀ fuel lst i, (copyLoop ex db dt fuel lst i).ids ⊆ lst := by
  intro fuel
  induction fuel with
  | zero => intro lst i x hx; exact hx
  | succ fuel ih =>
    intro lst i x
    by_cases h : i < lst.length
    · simp only [copyLoop, dif_pos h]
      by_cases hex : ex (copyFileName db dt (lst.get ⟨i, h⟩)) = true
      · simp only [if_pos hex]
        exact fun hx => ih lst (i + 1) hx
      · simp only [if_neg hex]
        exact fun hx => List.erase_subset _ _ (ih _ _ hx)
    · simp only [copyLoop, dif_neg h]
      exact fun hx => hx

/-- Everything copied was examined. -/
theorem copyLoop_copied_subset_examined (ex : String → Bool) (db dt : String) :
    ∀ fuel lst i, (copyLoop ex db dt fuel lst i).copied ⊆ (copyLoop ex db dt fuel lst i).examined := by
  intro fuel
  induction fuel with
  | zero => intro lst i x hx; exact absurd hx (List.not_mem_nil x)
  | succ fuel ih =>
    intro lst i x
    by_cases h : i < lst.length
    · simp only [copyLoop, dif_pos h]
      by_cases hex : ex (copyFileName db dt (lst.get ⟨i, h⟩)) = true
      · simp only [if_pos hex]
        intro hx
        rcases List.mem_cons.1 hx with h' | h'
        · exact List.mem_cons.2 (Or.inl h')
        · exact List.mem_cons.2 (Or.inr (ih _ _ h'))
      · simp only [if_neg hex]
        exact fun hx => List.mem_cons.2 (Or.inr (ih _ _ hx))
    · simp only [copyLoop, dif_neg h]
      exact fun hx => absurd hx (List.not_mem_nil x)

/-- Everything reported missing was examined. -/
theorem copyLoop_missing_subset_examined (ex : String → Bool) (db dt : String) :
    ∀ fuel lst i, (copyLoop ex db dt fuel lst i).missing ⊆ (copyLoop ex db dt fuel lst i).examined := by
  intro fuel
  induction fuel with
  | zero => intro lst i x hx; exact absurd hx (List.not_mem_nil x)
  | succ fuel ih =>
    intro lst i x
    by_cases h : i < lst.length
    · simp only [copyLoop, dif_pos h]
      by_cases hex : ex (copyFileName db dt (lst.get ⟨i, h⟩)) = true
      · simp only [if_pos hex]
        exact fun hx => List.mem_cons.2 (Or.inr (ih _ _ hx))
      · simp only [if_neg hex]
        intro hx
        rcases List.mem_cons.1 hx with h' | h'
        · exact List.mem_cons.2 (Or.inl h')
        · exact List.mem_cons.2 (Or.inr (ih _ _ h'))
    · simp only [copyLoop, dif_neg h]
      exact fun hx => absurd hx (List.not_mem_nil x)

/-- Once the loop index is past position 0, the head of the list survives
untouched: it is never examined and stays at the head of the final list
(Python's iterator never revisits earlier positions, and `remove` removes
the current — later — occurrence when the head occurs only once). -/
theorem copyLoop_head_invariant (ex : String → Bool) (db dt : String) (b : String) :
    ∀ fuel lst i, 1 ≤ i → lst.head? = some b → b ∉ lst.tail →
      b ∉ (copyLoop ex db dt fuel lst i).examined ∧
      (copyLoop ex db dt fuel lst i).ids.head? = some b := by
  intro fuel
  induction fuel with
  | zero =>
    intro lst i h1 hhead htail
    exact ⟨List.not_mem_nil b, hhead⟩
  | succ fuel ih =>
    intro lst i h1 hhead htail
    by_cases h : i < lst.length
    · obtain ⟨t, rfl⟩ : ∃ t, lst = b :: t := by
        cases lst with
        | nil => simp at hhead
        | cons x t =>
          have hx : x = b := by simpa using hhead
          exact ⟨t, by rw [hx]⟩
      have htail' : b ∉ t := by simpa using htail
      have hid : (b :: t).get ⟨i, h⟩ ∈ t := by
        obtain ⟨j, rfl⟩ : ∃ j, i = j + 1 := ⟨i - 1, by omega⟩
        simpa using List.get_mem t _ _
      have hne : b ≠ (b :: t).get ⟨i, h⟩ := fun hEq => htail' (hEq ▸ hid)
      simp only [copyLoop, dif_pos h]
      by_cases hex : ex (copyFileName db dt ((b :: t).get ⟨i, h⟩)) = true
      · simp only [if_pos hex]
        obtain ⟨h2, h3⟩ := ih (b :: t) (i + 1) (by omega) rfl htail'
        refine ⟨?_, h3⟩
        intro hmem
        rcases List.mem_cons.1 hmem with h' | h'
        · exact hne h'
        · exact h2 h'
      · simp only [if_neg hex]
        have hne3 : ¬ ((b == (b :: t).get ⟨i, h⟩) = true) := by simpa using hne
        have herase : (b :: t).erase ((b :: t).get ⟨i, h⟩) =
            b :: t.erase ((b :: t).get ⟨i, h⟩) := by
          simp only [List.erase_cons]
          rw [if_neg hne3]
        rw [herase]
        have htail2 : b ∉ t.erase ((b :: t).get ⟨i, h⟩) :=
          fun hmem => htail' (List.erase_subset _ _ hmem)
        obtain ⟨h2, h3⟩ := ih (b :: t.erase ((b :: t).get ⟨i, h⟩)) (i + 1) (by omega) rfl
          (by simpa using htail2)
        refine ⟨?_, h3⟩
        intro hmem
        rcases List.mem_cons.1 hmem with h' | h'
        · exact hne h'
        · exact h2 h'
    · simp only [copyLoop, dif_neg h]
      exact ⟨List.not_mem_nil b, hhead⟩

end Files

/-- C10, claim as stated, refuted: with no source files present, the list
`["a", "b", "c"]` has the consecutive pair `("b", "c")` both lacking source
files, yet `"c"` *is* examined and reported missing — because `"b"` itself
was silently skipped (after `"a"` was removed) and therefore never removed,
so the iterator does not skip `"c"`.  The claim's universal statement —
"for every list in which two consecutive ids both lack source files, the
second of the pair is neither checked, copied, nor reported as missing" —
is false at this input. -/
theorem C10_counterexample :
    (Files.copy_files (fun _ => false) "pmc" "txt" ["a", "b", "c"]).missing = ["a", "c"] ∧
    "c" ∈ (Files.copy_files (fun _ => false) "pmc" "txt" ["a", "b", "c"]).examined ∧
    (Files.copy_files (fun _ => false) "pmc" "txt" ["a", "b", "c"]).ids = ["b"] := by
  refine ⟨by decide, by decide, by decide⟩

/-- C10 (amended): `copy_files` does mutate the caller's list in place, and
the element immediately following an id that is *examined* and found
missing is skipped.  In particular, for a duplicate-free list whose first
two ids both lack source files, the first is examined and removed and the
second is neither examined, copied, nor reported missing — and it survives
in the caller's list.  (The original claim's version — for *every*
consecutive missing pair — fails when the first element of the pair was
itself skipped, see the counterexample.) -/
theorem C10_second_of_leading_missing_pair_skipped (ex : String → Bool) (db dt a b : String)
    (rest : List String) (hnd : (a :: b :: rest).Nodup)
    (ha : ex (Files.copyFileName db dt a) = false)
    (hb : ex (Files.copyFileName db dt b) = false) :
    b ∉ (Files.copy_files ex db dt (a :: b :: rest)).examined ∧
    b ∉ (Files.copy_files ex db dt (a :: b :: rest)).copied ∧
    b ∉ (Files.copy_files ex db dt (a :: b :: rest)).missing ∧
    b ∈ (Files.copy_files ex db dt (a :: b :: rest)).ids ∧
    a ∉ (Files.copy_files ex db dt (a :: b :: rest)).ids := by
  have hab : a ≠ b := by
    intro hEq
    exact (List.nodup_cons.1 hnd).1 (hEq ▸ List.mem_cons_self b rest)
  have hbrest : b ∉ rest := (List.nodup_cons.1 (List.nodup_cons.1 hnd).2).1
  have hanotin : a ∉ b :: rest := (List.nodup_cons.1 hnd).1
  unfold Files.copy_files
  have hlen : 0 < (a :: b :: rest).length := by simp
  simp only [Files.copyLoop, dif_pos hlen]
  have hget : (a :: b :: rest).get ⟨0, hlen⟩ = a := rfl
  rw [hget, ha]
  simp only [Bool.false_eq_true, if_false]
  have herase : (a :: b :: rest).erase a = b :: rest := List.erase_cons_head a _
  rw [herase]
  obtain ⟨hex, hhead⟩ := Files.copyLoop_head_invariant ex db dt b
    (a :: b :: rest).length (b :: rest) 1 (le_refl 1) rfl hbrest
  have hids_sub := Files.copyLoop_ids_subset ex db dt (a :: b :: rest).length (b :: rest) 1
  have hcop := Files.copyLoop_copied_subset_examined ex db dt (a :: b :: rest).length (b :: rest) 1
  have hmis := Files.copyLoop_missing_subset_examined ex db dt (a :: b :: rest).length (b :: rest) 1
  refine ⟨?_, ?_, ?_, ?_, ?_⟩
  · intro hmem
    rcases List.mem_cons.1 hmem with h' | h'
    · exact hab h'.symm
    · exact hex h'
  · intro hmem
    exact hex (hcop hmem)
  · intro hmem
    rcases List.mem_cons.1 hmem with h' | h'
    · exact hab h'.symm
    · exact hex (hmis h')
  · exact List.mem_of_mem_head? hhead
  · intro hmem
    exact hanotin (hids_sub hmem)

/-- Witness for C10 (amended): the concrete list `["a", "b", "c"]` with no
source files present — `"b"` is skipped entirely and stays in the list,
`"a"` is removed. -/
theorem C10_second_of_leading_missing_pair_skipped_witness :
    "b" ∉ (Files.copy_files (fun _ => false) "pmc" "txt" ["a", "b", "c"]).examined ∧
    "b" ∉ (Files.copy_files (fun _ => false) "pmc" "txt" ["a", "b", "c"]).copied ∧
    "b" ∉ (Files.copy_files (fun _ => false) "pmc" "txt" ["a", "b", "c"]).missing ∧
    "b" ∈ (Files.copy_files (fun _ => false) "pmc" "txt" ["a", "b", "c"]).ids ∧
    "a" ∉ (Files.copy_files (fun _ => false) "pmc" "txt" ["a", "b", "c"]).ids :=
  C10_second_of_leading_missing_pair_skipped (fun _ => false) "pmc" "txt" "a" "b" ["c"]
    (by decide) rfl rfl

/-! ## Claim C8 — fetch precondition -/

/-- C8 (confirmed): calling `fetch` with an empty `ids` argument when no
prior search recorded a results file raises
`ValueError("No search results file or ids provided...")` before any remote
call or file write: the model returns the error without consulting the
remote oracle and without producing any new disk state. -/
theorem C8_fetch_empty_ids_no_search_fails_fast (db retmode : List Char) (retry_failed : Bool)
    (remote : List Char → Bool) (st : Entrez.FetchSt) :
    Entrez.fetch db retmode none [] retry_failed remote st =
      .error "No search results file or ids provided. Please run a search first." := by
  rfl

/-! ## Claim C7 — paginator early exit on zero total -/

/-- C7, claim as stated, refuted: the claim says that whenever the initial
`retmax = 1` request reports a total of 0, the paginator "produces an empty
sequence of identifiers" for *every* resume state.  Resuming over an
existing ids file containing `"7"` with a remote total of 0 returns
`["7"]`, not the empty sequence (the early return at
`src/papers/entrez.py`, lines 170-172, returns `all_ids`). -/
theorem C7_counterexample :
    (Papers.Entrez.search false (some ["7"]) (.ok 0) (fun _ => .err) 5).ids ≠ [] ∧
    (Papers.Entrez.search false (some ["7"]) (.ok 0) (fun _ => .err) 5).ids = ["7"] := by
  exact ⟨by decide, by decide⟩

/-- C7 (amended): when the remote-reported total from the initial
`retmax = 1` request is 0, `search` terminates immediately — it issues zero
page requests — and returns exactly the identifiers already persisted in
the search file (the empty sequence when starting fresh or when
`restart = true`, but the resumed ids otherwise). -/
theorem C7_total_zero_terminates_immediately (restart : Bool) (file : Option (List String))
    (pages : Nat → Papers.Entrez.PageResp) (fuel : Nat) :
    Papers.Entrez.search restart file (.ok 0) pages fuel =
      { ids := (Papers.Entrez.get_ids_from_search_file file restart).1,
        file := (Papers.Entrez.get_ids_from_search_file file restart).2,
        pageReqs := 0 } := by
  simp [Papers.Entrez.search]

/-! ## Claim C4 — round-trip rendering of the minimal synthetic document -/


/-- C4, claim as stated, refuted: for the minimal synthetic document,
`paper_to_json` does *not* equal the claimed JSON object even up to key
order — the author object carries the extra keys `email` (null) and
`is_corresponding` (false), so "values must match exactly" fails on the
`authors` entry.  (`jsonEquivF` compares objects with key order free.) -/
theorem C4_counterexample :
    (match Doc.paper_to_json Doc.synthDoc with
     | .ok j => Doc.jsonEquivF 20 j Doc.claimedJsonC4
     | .error _ => true) = false := by
  decide

/-- C4 (amended): for the minimal synthetic document, `paper_to_text`
contains, in order, a `TITLE` block containing `T1`, an `AUTHORS` block
containing `A B`, an `ABSTRACT` block containing `Abs.`, and a `BODY` block
containing `Intro` and `Hello.`; and `paper_to_json` produces exactly the
claimed object *except* that the author entry additionally carries
`email: null` and `is_corresponding: false`. -/
theorem C4_roundtrip_minimal_document :
    Doc.containsInOrder (Doc.paper_to_text Doc.synthDoc)
      ["TITLE", "T1", "AUTHORS", "A B", "ABSTRACT", "Abs.", "BODY", "Intro", "Hello."] = true ∧
    Doc.paper_to_json Doc.synthDoc = .ok Doc.actualJsonC4 ∧
    Doc.jsonEquivF 20 Doc.actualJsonC4 Doc.actualJsonC4 = true := by
  refine ⟨by decide, by rfl, by decide⟩

/-! ## Fetch-loop lemmas (claims C1 and C2) -/

namespace Entrez

/-- Concatenating the chunks gives back the list (any fuel: exhausted fuel
emits the remainder as one chunk). -/
theorem chunkGo_join {α : Type} (n : Nat) :
    ∀ (fuel : Nat) (l : List α), (chunkGo n fuel l).join = l := by
  intro fuel
  induction fuel with
  | zero =>
    intro l
    cases l with
    | nil => rfl
    | cons x xs => simp [chunkGo]
  | succ fuel ih =>
    intro l
    cases l with
    | nil => rfl
    | cons x xs =>
      simp only [chunkGo, List.join_cons, ih]
      exact List.take_append_drop n (x :: xs)

/-- `chunk_list` loses no elements (for a positive chunk size). -/
theorem chunk_list_join {α : Type} (l : List α) (n : Nat) (hn : n ≠ 0) :
    (chunk_list l n).join = l := by
  simp [chunk_list, hn, chunkGo_join]

/-- A nonempty list yields at least one chunk. -/
theorem chunk_list_ne_nil {α : Type} (l : List α) (n : Nat) (hn : n ≠ 0) (hl : l ≠ []) :
    chunk_list l n ≠ [] := by
  cases l with
  | nil => exact absurd rfl hl
  | cons x xs =>
    simp only [chunk_list, if_neg hn, List.length_cons, chunkGo]
    exact List.cons_ne_nil _ _

/-- `processId` never adds a successfully-fetched id to the failure set. -/
theorem processId_preserves_not_failed {db retmode id : List Char} {retry : Bool}
    {remote : List Char → Bool} {s : RunSt} {x : List Char}
    (hremote : remote id = true) (hid : id ∉ s.failed) :
    id ∉ (processId db retmode retry remote s x).failed := by
  unfold processId
  by_cases hx : remote x = true
  · simp only [hx, if_true]
    by_cases hc : retry ∧ x ∈ s.failed
    · simp only [if_pos hc]
      intro hmem
      exact hid (Finset.mem_of_mem_erase hmem)
    · simpa [hc] using hid
  · simp only [hx, if_false]
    intro hmem
    rcases Finset.mem_insert.1 hmem with h | h
    · exact hx (h ▸ hremote)
    · exact hid h

/-- Processing a retried id whose remote call succeeds leaves it outside the
failure set. -/
theorem processId_self_not_failed {db retmode id : List Char}
    {remote : List Char → Bool} {s : RunSt} (hremote : remote id = true) :
    id ∉ (processId db retmode true remote s id).failed := by
  unfold processId
  simp only [hremote, if_true]
  by_cases hc : True ∧ id ∈ s.failed
  · simp only [if_pos hc]
    exact Finset.not_mem_erase id _
  · simp only [if_neg hc]
    simp only [true_and] at hc
    simpa using hc

/-- After a retry pass over a list containing `id` (whose remote call
succeeds), `id` is not in the failure set. -/
theorem foldl_processId_not_failed {db retmode id : List Char}
    {remote : List Char → Bool} (hremote : remote id = true) :
    ∀ (l : List (List Char)) (s : RunSt), (id ∈ l ∨ id ∉ s.failed) →
      id ∉ (l.foldl (processId db retmode true remote) s).failed := by
  intro l
  induction l with
  | nil =>
    intro s h
    rcases h with h | h
    · exact absurd h (List.not_mem_nil id)
    · exact h
  | cons x xs ih =>
    intro s h
    simp only [List.foldl_cons]
    rcases h with h | h
    · rcases List.mem_cons.1 h with rfl | hxs
      · exact ih _ (Or.inr (processId_self_not_failed hremote))
      · exact ih _ (Or.inl hxs)
    · exact ih _ (Or.inr (processId_preserves_not_failed hremote h))

/-- `processId` never touches the ledger file. -/
theorem processId_ledger (db retmode : List Char) (retry : Bool)
    (remote : List Char → Bool) (s : RunSt) (x : List Char) :
    (processId db retmode retry remote s x).ledger = s.ledger := by
  unfold processId
  by_cases hx : remote x = true
  · by_cases hc : retry = true ∧ x ∈ s.failed
    · simp [hx, hc]
    · simp [hx, hc]
  · simp [hx]

/-- The inner fold of a batch never touches the ledger file. -/
theorem foldl_processId_ledger (db retmode : List Char) (retry : Bool)
    (remote : List Char → Bool) :
    ∀ (l : List (List Char)) (s : RunSt),
      (l.foldl (processId db retmode retry remote) s).ledger = s.ledger := by
  intro l
  induction l with
  | nil => intro s; rfl
  | cons x xs ih =>
    intro s
    simp only [List.foldl_cons, ih, processId_ledger]

/-- The failure set of a batch is that of its inner fold (the ledger write
does not touch it). -/
theorem processBatch_failed_eq (db retmode : List Char) (retry : Bool)
    (remote : List Char → Bool) (s : RunSt) (batch : List (List Char)) :
    (processBatch db retmode retry remote s batch).failed =
      (batch.foldl (processId db retmode retry remote) s).failed := by
  unfold processBatch
  by_cases h : (batch.foldl (processId db retmode retry remote) s).failed.Nonempty
  · simp [h]
  · simp [h]

/-- Batch-level version of `foldl_processId_not_failed`. -/
theorem foldl_processBatch_not_failed {db retmode id : List Char}
    {remote : List Char → Bool} (hremote : remote id = true) :
    ∀ (bs : List (List (List Char))) (s : RunSt), ((∃ b ∈ bs, id ∈ b) ∨ id ∉ s.failed) →
      id ∉ (bs.foldl (processBatch db retmode true remote) s).failed := by
  intro bs
  induction bs with
  | nil =>
    intro s h
    rcases h with ⟨b, hb, _⟩ | h
    · exact absurd hb (List.not_mem_nil b)
    · exact h
  | cons b bs ih =>
    intro s h
    simp only [List.foldl_cons]
    rcases h with ⟨b', hb', hid⟩ | h
    · rcases List.mem_cons.1 hb' with rfl | hbs
      · refine ih _ (Or.inr ?_)
        rw [processBatch_failed_eq]
        exact foldl_processId_not_failed hremote _ _ (Or.inl hid)
      · exact ih _ (Or.inl ⟨b', hbs, hid⟩)
    · refine ih _ (Or.inr ?_)
      rw [processBatch_failed_eq]
      exact foldl_processId_not_failed hremote _ _ (Or.inr h)

/-- After the last batch, a nonempty failure set has just been persisted:
the ledger of the fold's result equals its failure set. -/
theorem foldl_processBatch_ledger (db retmode : List Char) (retry : Bool)
    (remote : List Char → Bool) :
    ∀ (bs : List (List (List Char))) (s : RunSt), bs ≠ [] →
      (bs.foldl (processBatch db retmode retry remote) s).failed.Nonempty →
      (bs.foldl (processBatch db retmode retry remote) s).ledger =
        some (bs.foldl (processBatch db retmode retry remote) s).failed := by
  intro bs
  induction bs with
  | nil => intro s h; exact absurd rfl h
  | cons b bs ih =>
    intro s _ hne
    cases bs with
    | nil =>
      simp only [List.foldl_cons, List.foldl_nil] at hne ⊢
      unfold processBatch at hne ⊢
      by_cases h : (b.foldl (processId db retmode retry remote) s).failed.Nonempty
      · simp [h]
      · simp only [if_neg h] at hne
        exact absurd hne h
    | cons b' bs' =>
      simp only [List.foldl_cons] at hne ⊢
      have := ih (processBatch db retmode retry remote s b) (List.cons_ne_nil b' bs')
      simp only [List.foldl_cons] at this
      exact this hne

end Entrez

/-! ## Claim C1 — failure ledger after a successful retry -/

/-- C1, claim as stated, refuted: the failed-ids file is rewritten only when
the current failure set is nonempty (`if failed_ids:` at
`src/papers/entrez.py`, lines 390-393).  Retrying the single previously
failed id `"1"` succeeds, the failure set becomes empty — and the persisted
FailureLedger still contains `"1"` after the run, and no batch persisted the
(empty) failure set by overwriting. -/
theorem C1_counterexample :
    Papers.Entrez.fetch "pmc".toList "xml".toList none [['1']] true (fun _ => true)
        { files := ∅, ledger := some {['1']} } =
      .ok ({ files := {"pmc_1.xml".toList}, ledger := some {['1']} }, [['1']], ∅, 1) ∧
    ['1'] ∈ ({['1']} : Finset (List Char)) := by
  constructor
  · rfl
  · decide

/-- C1 (amended): in a `retry_failed=true` run, an identifier from the
failure ledger (not yet downloaded) whose remote fetch succeeds ends the run
outside the in-memory failure set, and whenever the final failure set is
nonempty the ledger file has just been overwritten with exactly that set —
so the identifier is absent from the persisted FailureLedger.  The ledger is
rewritten after a batch *only when* the current failure set is nonempty: a
batch that leaves the set empty does not touch the file, which can leave the
previous (stale) contents behind — see the counterexample. -/
theorem C1_retry_success_absent_from_written_ledger
    (db retmode : List Char) (searchFile : Option (List (List Char)))
    (ids : List (List Char)) (id : List Char) (remote : List Char → Bool)
    (st st' : Papers.Entrez.FetchSt) (fetched : List (List Char))
    (finalFailed : Finset (List Char)) (n : Nat)
    (hremote : remote id = true)
    (hmem : id ∈ ids)
    (hfail : id ∈ st.ledger.getD ∅)
    (hdown : id ∉ Papers.Entrez.downloadedIds db retmode st.files)
    (hrun : Papers.Entrez.fetch db retmode searchFile ids true remote st =
        .ok (st', fetched, finalFailed, n)) :
    id ∈ fetched ∧ id ∉ finalFailed ∧
    (finalFailed.Nonempty → st'.ledger = some finalFailed) ∧
    (∀ (s : Papers.Entrez.RunSt) (batch : List (List Char)),
      ((Papers.Entrez.processBatch db retmode true remote s batch).failed.Nonempty →
        (Papers.Entrez.processBatch db retmode true remote s batch).ledger =
          some (Papers.Entrez.processBatch db retmode true remote s batch).failed) ∧
      (¬ (Papers.Entrez.processBatch db retmode true remote s batch).failed.Nonempty →
        (Papers.Entrez.processBatch db retmode true remote s batch).ledger = s.ledger)) := by
  -- reduce the run to `fetchRun`
  have hrun' : Papers.Entrez.fetchRun db retmode ids true remote st =
      (st', fetched, finalFailed, n) := by
    cases ids with
    | nil => exact absurd hmem (List.not_mem_nil id)
    | cons a as =>
      simpa [Papers.Entrez.fetch] using hrun
  -- name the intermediate values of `fetchRun`
  have hfilter : id ∈ ids.filter (fun i => decide (i ∈ st.ledger.getD ∅ ∧
      i ∉ Papers.Entrez.downloadedIds db retmode st.files)) :=
    List.mem_filter.2 ⟨hmem, decide_eq_true ⟨hfail, hdown⟩⟩
  have hjoin := Papers.Entrez.chunk_list_join
    (ids.filter (fun i => decide (i ∈ st.ledger.getD ∅ ∧
      i ∉ Papers.Entrez.downloadedIds db retmode st.files))) 100 (by decide)
  have hbatch : ∃ b ∈ Papers.Entrez.chunk_list
      (ids.filter (fun i => decide (i ∈ st.ledger.getD ∅ ∧
        i ∉ Papers.Entrez.downloadedIds db retmode st.files))) 100, id ∈ b := by
    rw [← hjoin] at hfilter
    exact List.mem_join.1 hfilter
  have hne : ids.filter (fun i => decide (i ∈ st.ledger.getD ∅ ∧
      i ∉ Papers.Entrez.downloadedIds db retmode st.files)) ≠ [] :=
    List.ne_nil_of_mem hfilter
  simp only [Papers.Entrez.fetchRun] at hrun'
  obtain ⟨hst', hfetched, hfailed, hn⟩ : st' = _ ∧ fetched = _ ∧ finalFailed = _ ∧ n = _ := by
    have h1 := congrArg Prod.fst hrun'
    have h2 := congrArg (fun p => p.2.1) hrun'
    have h3 := congrArg (fun p => p.2.2.1) hrun'
    have h4 := congrArg (fun p => p.2.2.2) hrun'
    exact ⟨h1.symm, h2.symm, h3.symm, h4.symm⟩
  refine ⟨?_, ?_, ?_, ?_⟩
  · rw [hfetched]
    exact hfilter
  · rw [hfailed]
    exact Papers.Entrez.foldl_processBatch_not_failed hremote _ _ (Or.inl hbatch)
  · intro hnonempty
    rw [hst', hfailed]
    rw [hfailed] at hnonempty
    exact Papers.Entrez.foldl_processBatch_ledger db retmode true remote _ _
      (Papers.Entrez.chunk_list_ne_nil _ 100 (by decide) hne) hnonempty
  · intro s batch
    constructor
    · intro hnonempty
      unfold Papers.Entrez.processBatch at hnonempty ⊢
      by_cases h : ((batch.foldl (Papers.Entrez.processId db retmode true remote) s)).failed.Nonempty
      · simp [h]
      · simp only [if_neg h] at hnonempty
        exact absurd hnonempty h
    · intro hempty
      unfold Papers.Entrez.processBatch at hempty ⊢
      by_cases h : ((batch.foldl (Papers.Entrez.processId db retmode true remote) s)).failed.Nonempty
      · simp only [if_pos h] at hempty
        exact absurd h hempty
      · simp only [if_neg h]
        exact Papers.Entrez.foldl_processId_ledger db retmode true remote batch s

/-- Witness for C1 (amended): ids `"1"` (retry succeeds) and `"2"` (still
failing); after the run the failure set is `{"2"}`, nonempty, so the ledger
is rewritten to exactly `{"2"}` and `"1"` is absent from it. -/
theorem C1_retry_success_absent_from_written_ledger_witness :
    ['1'] ∈ [['1'], ['2']] ∧ ['1'] ∉ ({['2']} : Finset (List Char)) ∧
    ({ files := {"pmc_1.xml".toList}, ledger := some {['2']} } :
        Papers.Entrez.FetchSt).ledger = some ({['2']} : Finset (List Char)) := by
  have h := C1_retry_success_absent_from_written_ledger "pmc".toList "xml".toList none
    [['1'], ['2']] ['1'] (fun i => decide (i = ['1']))
    { files := ∅, ledger := some {['1'], ['2']} }
    { files := {"pmc_1.xml".toList}, ledger := some {['2']} }
    [['1'], ['2']] {['2']} 1
    (by decide) (by decide) (by decide) (by decide) (by rfl)
  exact ⟨h.1, h.2.1, h.2.2.1 (by decide)⟩

/-! ## String lemmas for the raw-document filename round trip (claim C2) -/

/-- `takeWhile` passes over a block that satisfies the predicate. -/
theorem takeWhile_append_all (p : Char → Bool) :
    ∀ (l₁ l₂ : List Char), (∀ c ∈ l₁, p c = true) →
      (l₁ ++ l₂).takeWhile p = l₁ ++ l₂.takeWhile p := by
  intro l₁
  induction l₁ with
  | nil => intro l₂ _; rfl
  | cons c l₁ ih =>
    intro l₂ hall
    simp only [List.cons_append, List.takeWhile_cons, hall c (List.mem_cons_self c l₁), if_true]
    rw [ih l₂ (fun c' hc' => hall c' (List.mem_cons_of_mem c hc'))]

/-- `stripOccGo` is fuel-irrelevant above the input length. -/
theorem stripOccGo_eq_stripOcc (pat : List Char) :
    ∀ fuel, ∀ l : List Char, l.length ≤ fuel → stripOccGo pat fuel l = stripOcc pat l := by
  intro fuel
  induction fuel using Nat.strong_induction_on with
  | _ fuel ih =>
    intro l hl
    cases l with
    | nil =>
      cases fuel with
      | zero => rfl
      | succ fuel => rfl
    | cons x xs =>
      cases fuel with
      | zero => simp at hl
      | succ k =>
        have hk : xs.length ≤ k := by
          simp only [List.length_cons] at hl
          omega
        unfold stripOcc
        simp only [List.length_cons]
        by_cases hc : pat ≠ [] ∧ pat.isPrefixOf (x :: xs) = true
        · have hplen : 1 ≤ pat.length := by
            cases pat with
            | nil => exact absurd rfl hc.1
            | cons p ps => simp
          have hdlen : ((x :: xs).drop pat.length).length ≤ xs.length := by
            simp only [List.length_drop, List.length_cons]
            omega
          simp only [stripOccGo, if_pos hc]
          rw [ih k (by omega) _ (le_trans hdlen hk)]
          rw [ih xs.length (by omega) _ (le_trans hdlen (le_refl _))]
        · simp only [stripOccGo, if_neg hc]
          rw [ih k (by omega) xs hk, ih xs.length (by omega) xs (le_refl _)]

/-- A pattern that does not occur in `l` strips to `l` itself. -/
theorem stripOccGo_of_not_infix (pat : List Char) :
    ∀ fuel (l : List Char), ¬ pat <:+: l → stripOccGo pat fuel l = l := by
  intro fuel
  induction fuel with
  | zero =>
    intro l _
    cases l with
    | nil => rfl
    | cons x xs => rfl
  | succ fuel ih =>
    intro l hocc
    cases l with
    | nil => rfl
    | cons x xs =>
      have hc : ¬ (pat ≠ [] ∧ pat.isPrefixOf (x :: xs) = true) := by
        rintro ⟨-, hpre⟩
        exact hocc ((List.isPrefixOf_iff_prefix.1 hpre).isInfix)
      simp only [stripOccGo, if_neg hc]
      rw [ih xs (fun h => hocc (h.trans (List.suffix_cons x xs).isInfix))]

/-- `replace(pat, "")` is the identity when `pat` does not occur. -/
theorem stripOcc_of_not_infix (pat l : List Char) (hocc : ¬ pat <:+: l) :
    stripOcc pat l = l :=
  stripOccGo_of_not_infix pat l.length l hocc

/-- `replace(pat, "")` removes a leading occurrence of `pat`. -/
theorem stripOcc_append_left (pat l : List Char) (hp : pat ≠ []) :
    stripOcc pat (pat ++ l) = stripOcc pat l := by
  cases pat with
  | nil => exact absurd rfl hp
  | cons p ps =>
    have hpre : (p :: ps).isPrefixOf ((p :: ps) ++ l) = true :=
      List.isPrefixOf_iff_prefix.2 (List.prefix_append (p :: ps) l)
    have hc : (p :: ps) ≠ [] ∧ (p :: ps).isPrefixOf ((p :: ps) ++ l) = true :=
      ⟨List.cons_ne_nil p ps, hpre⟩
    show stripOccGo (p :: ps) ((p :: ps) ++ l).length ((p :: ps) ++ l) = stripOcc (p :: ps) l
    have hlen : ((p :: ps) ++ l).length = (ps.length + l.length) + 1 := by
      simp only [List.length_append, List.length_cons]
      omega
    rw [hlen]
    have hc2 : (p :: ps) ≠ [] ∧ (p :: ps).isPrefixOf (p :: (ps ++ l)) = true := hc
    have hstep : stripOccGo (p :: ps) ((ps.length + l.length) + 1) ((p :: ps) ++ l) =
        stripOccGo (p :: ps) (ps.length + l.length)
          ((p :: (ps ++ l)).drop (p :: ps).length) := by
      show (if (p :: ps) ≠ [] ∧ (p :: ps).isPrefixOf (p :: (ps ++ l)) = true then
              stripOccGo (p :: ps) (ps.length + l.length)
                ((p :: (ps ++ l)).drop (p :: ps).length)
            else p :: stripOccGo (p :: ps) (ps.length + l.length) (ps ++ l)) = _
      rw [if_pos hc2]
    rw [hstep]
    have hdrop : (p :: (ps ++ l)).drop (p :: ps).length = l := List.drop_left (p :: ps) l
    rw [hdrop]
    exact stripOccGo_eq_stripOcc (p :: ps) (ps.length + l.length) l (by omega)

namespace Entrez

/-- The raw-document filename parses back to the identifier, provided the
database name and the identifier contain no `'.'` and the identifier does
not contain `"{db}_"` as a substring (the source's
`file.split('.')[0].replace(f'{db}_', '')` is lossy otherwise — see the C2
counterexample). -/
theorem parseFetchedFile_roundtrip (db retmode id : List Char)
    (hdb : '.' ∉ db) (hid : '.' ∉ id) (hocc : ¬ (db ++ ['_']) <:+: id) :
    parseFetchedFile db (fetchFileName db retmode id) = id := by
  unfold parseFetchedFile fetchFileName
  have hdb2 : ∀ c ∈ db, (fun c => decide (c ≠ '.')) c = true :=
    fun c hc => decide_eq_true (fun hEq => hdb (hEq ▸ hc))
  have hid2 : ∀ c ∈ id, (fun c => decide (c ≠ '.')) c = true :=
    fun c hc => decide_eq_true (fun hEq => hid (hEq ▸ hc))
  have hTake : (db ++ '_' :: (id ++ '.' :: retmode)).takeWhile (fun c => decide (c ≠ '.')) =
      db ++ '_' :: id := by
    rw [takeWhile_append_all _ db _ hdb2]
    simp only [List.takeWhile_cons]
    rw [if_pos (by decide)]
    rw [takeWhile_append_all _ id _ hid2]
    simp only [List.takeWhile_cons]
    rw [if_neg (by decide)]
    simp
  rw [hTake]
  have hsplit : db ++ '_' :: id = (db ++ ['_']) ++ id := by
    simp [List.append_assoc]
  rw [hsplit, stripOcc_append_left _ _ (by simp), stripOcc_of_not_infix _ _ hocc]

/-- The raw-document filename ends in `.{retmode}`. -/
theorem fetchFileName_suffix (db retmode id : List Char) :
    ('.' :: retmode).isSuffixOf (fetchFileName db retmode id) = true := by
  rw [List.isSuffixOf_iff_suffix]
  unfold fetchFileName
  have : db ++ '_' :: (id ++ '.' :: retmode) = (db ++ '_' :: id) ++ ('.' :: retmode) := by
    simp [List.append_assoc]
  rw [this]
  exact List.suffix_append _ _

/-- A present raw-document file puts its identifier in `downloaded_ids`. -/
theorem mem_downloadedIds {db retmode id : List Char} {files : Finset (List Char)}
    (hf : fetchFileName db retmode id ∈ files)
    (hdb : '.' ∉ db) (hid : '.' ∉ id) (hocc : ¬ (db ++ ['_']) <:+: id) :
    id ∈ downloadedIds db retmode files := by
  unfold downloadedIds
  exact Finset.mem_image.2 ⟨fetchFileName db retmode id,
    Finset.mem_filter.2 ⟨hf, fetchFileName_suffix db retmode id⟩,
    parseFetchedFile_roundtrip db retmode id hdb hid hocc⟩

/-- `processId` only adds files. -/
theorem processId_files_mono (db retmode : List Char) (retry : Bool)
    (remote : List Char → Bool) (s : RunSt) (x : List Char) :
    s.files ⊆ (processId db retmode retry remote s x).files := by
  unfold processId
  by_cases hx : remote x = true
  · simp only [hx, if_true]
    split
    · exact Finset.subset_insert _ _
    · exact Finset.subset_insert _ _
  · simp [hx]

/-- The inner fold of a batch only adds files. -/
theorem foldl_processId_files_mono (db retmode : List Char) (retry : Bool)
    (remote : List Char → Bool) :
    ∀ (l : List (List Char)) (s : RunSt),
      s.files ⊆ (l.foldl (processId db retmode retry remote) s).files := by
  intro l
  induction l with
  | nil => intro s; exact fun y hy => hy
  | cons x xs ih =>
    intro s
    exact fun y hy => ih _ (processId_files_mono db retmode retry remote s x hy)

/-- The batch's files are those of its inner fold. -/
theorem processBatch_files_eq (db retmode : List Char) (retry : Bool)
    (remote : List Char → Bool) (s : RunSt) (batch : List (List Char)) :
    (processBatch db retmode retry remote s batch).files =
      (batch.foldl (processId db retmode retry remote) s).files := by
  unfold processBatch
  by_cases h : (batch.foldl (processId db retmode retry remote) s).failed.Nonempty
  · simp [h]
  · simp [h]

/-- Batches only add files. -/
theorem foldl_processBatch_files_mono (db retmode : List Char) (retry : Bool)
    (remote : List Char → Bool) :
    ∀ (bs : List (List (List Char))) (s : RunSt),
      s.files ⊆ (bs.foldl (processBatch db retmode retry remote) s).files := by
  intro bs
  induction bs with
  | nil => intro s; exact fun y hy => hy
  | cons b bs ih =>
    intro s
    intro y hy
    refine ih _ ?_
    rw [processBatch_files_eq]
    exact foldl_processId_files_mono db retmode retry remote b s hy

/-- A successfully fetched id has its file on disk after the inner fold. -/
theorem foldl_processId_file_written {db retmode id : List Char} {retry : Bool}
    {remote : List Char → Bool} (hremote : remote id = true) :
    ∀ (l : List (List Char)) (s : RunSt), id ∈ l →
      fetchFileName db retmode id ∈ (l.foldl (processId db retmode retry remote) s).files := by
  intro l
  induction l with
  | nil => intro s h; exact absurd h (List.not_mem_nil id)
  | cons x xs ih =>
    intro s h
    simp only [List.foldl_cons]
    rcases List.mem_cons.1 h with hEq | hxs
    · refine foldl_processId_files_mono db retmode retry remote xs _ ?_
      rw [← hEq]
      unfold processId
      simp only [hremote, if_true]
      split
      · exact Finset.mem_insert_self _ _
      · exact Finset.mem_insert_self _ _
    · exact ih _ hxs

/-- A successfully fetched id (found in one of the batches) has its file on
disk after the whole run. -/
theorem foldl_processBatch_file_written {db retmode id : List Char} {retry : Bool}
    {remote : List Char → Bool} (hremote : remote id = true) :
    ∀ (bs : List (List (List Char))) (s : RunSt), (∃ b ∈ bs, id ∈ b) →
      fetchFileName db retmode id ∈
        (bs.foldl (processBatch db retmode retry remote) s).files := by
  intro bs
  induction bs with
  | nil =>
    rintro s ⟨b, hb, -⟩
    exact absurd hb (List.not_mem_nil b)
  | cons b bs ih =>
    rintro s ⟨b', hb', hid⟩
    simp only [List.foldl_cons]
    rcases List.mem_cons.1 hb' with hEq | hbs
    · refine foldl_processBatch_files_mono db retmode retry remote bs _ ?_
      rw [processBatch_files_eq]
      exact foldl_processId_file_written hremote b s (hEq ▸ hid)
    · exact ih _ ⟨b', hbs, hid⟩

/-- Without retry the failure set only grows. -/
theorem processId_failed_mono_false (db retmode : List Char)
    (remote : List Char → Bool) (s : RunSt) (x : List Char) :
    s.failed ⊆ (processId db retmode false remote s x).failed := by
  unfold processId
  by_cases hx : remote x = true
  · simp [hx]
  · simp only [hx, if_false]
    exact Finset.subset_insert _ _

/-- Without retry, a failed id stays in the failure set through the inner
fold (and a processed failing id enters it). -/
theorem foldl_processId_failed_false {db retmode id : List Char}
    {remote : List Char → Bool} (hremote : remote id = false) :
    ∀ (l : List (List Char)) (s : RunSt), (id ∈ l ∨ id ∈ s.failed) →
      id ∈ (l.foldl (processId db retmode false remote) s).failed := by
  intro l
  induction l with
  | nil =>
    intro s h
    rcases h with h | h
    · exact absurd h (List.not_mem_nil id)
    · exact h
  | cons x xs ih =>
    intro s h
    simp only [List.foldl_cons]
    rcases h with h | h
    · rcases List.mem_cons.1 h with rfl | hxs
      · refine ih _ (Or.inr ?_)
        unfold processId
        simp only [hremote, if_false]
        exact Finset.mem_insert_self _ _
      · exact ih _ (Or.inl hxs)
    · exact ih _ (Or.inr (processId_failed_mono_false db retmode remote s x h))

/-- Without retry, an id that fails in some batch is in the final failure
set. -/
theorem foldl_processBatch_failed_false {db retmode id : List Char}
    {remote : List Char → Bool} (hremote : remote id = false) :
    ∀ (bs : List (List (List Char))) (s : RunSt), ((∃ b ∈ bs, id ∈ b) ∨ id ∈ s.failed) →
      id ∈ (bs.foldl (processBatch db retmode false remote) s).failed := by
  intro bs
  induction bs with
  | nil =>
    intro s h
    rcases h with ⟨b, hb, -⟩ | h
    · exact absurd hb (List.not_mem_nil b)
    · exact h
  | cons b bs ih =>
    intro s h
    simp only [List.foldl_cons]
    rcases h with ⟨b', hb', hid⟩ | h
    · rcases List.mem_cons.1 hb' with hEq | hbs
      · refine ih _ (Or.inr ?_)
        rw [processBatch_failed_eq]
        exact foldl_processId_failed_false hremote b s (Or.inl (hEq ▸ hid))
      · exact ih _ (Or.inl ⟨b', hbs, hid⟩)
    · refine ih _ (Or.inr ?_)
      rw [processBatch_failed_eq]
      exact foldl_processId_failed_false hremote b s (Or.inr h)

end Entrez

/-! ## Claim C2 — at most one download across two non-retry runs -/

/-- C2, claim as stated, refuted: the completion check parses filenames with
`file.split('.')[0].replace(f'{db}_', '')`, which is lossy for identifiers
containing `'.'`.  For the id `"a.b"` (db `"pmc"`, retmode `"xml"`), run 1
downloads it and writes `pmc_a.b.xml`; run 2 parses that file back to
`"a"`, fails to recognise `"a.b"` as downloaded, and fetches it again — two
remote downloads for one identifier across the two runs. -/
theorem C2_counterexample :
    (match Papers.Entrez.fetch "pmc".toList "xml".toList none ["a.b".toList] false
        (fun _ => true) { files := ∅, ledger := none } with
     | .ok (st1, f1, _, _) =>
       (match Papers.Entrez.fetch "pmc".toList "xml".toList none ["a.b".toList] false
           (fun _ => true) st1 with
        | .ok (_, f2, _, _) => (f1 ++ f2).count "a.b".toList
        | .error _ => 0)
     | .error _ => 0) = 2 := by
  decide

/-- C2 (amended): for a duplicate-free id list whose identifiers contain no
`'.'` and do not contain `"{db}_"` as a substring (true of the numeric
accession ids the system uses; the general claim fails, see the
counterexample), two successive `retry_failed=false` runs issue at most one
remote download per identifier, and an identifier whose raw-document file
already exists is never fetched — the file's existence is the completion
marker consulted. -/
theorem C2_at_most_one_download_across_runs
    (db retmode : List Char) (sf1 sf2 : Option (List (List Char)))
    (ids : List (List Char)) (remote1 remote2 : List Char → Bool)
    (st0 st1 st2 : Papers.Entrez.FetchSt) (f1 f2 : List (List Char))
    (ff1 ff2 : Finset (List Char)) (n1 n2 : Nat)
    (hnd : ids.Nodup)
    (hdb : '.' ∉ db)
    (hids : ∀ id ∈ ids, '.' ∉ id ∧ ¬ (db ++ ['_']) <:+: id)
    (hne : ids ≠ [])
    (hrun1 : Papers.Entrez.fetch db retmode sf1 ids false remote1 st0 =
        .ok (st1, f1, ff1, n1))
    (hrun2 : Papers.Entrez.fetch db retmode sf2 ids false remote2 st1 =
        .ok (st2, f2, ff2, n2)) :
    (f1 ++ f2).Nodup ∧
    (∀ id ∈ ids, Papers.Entrez.fetchFileName db retmode id ∈ st0.files → id ∉ f1) := by
  -- reduce both runs to `fetchRun`
  have hrun1' : Papers.Entrez.fetchRun db retmode ids false remote1 st0 =
      (st1, f1, ff1, n1) := by
    cases ids with
    | nil => exact absurd rfl hne
    | cons a as => simpa [Papers.Entrez.fetch] using hrun1
  have hrun2' : Papers.Entrez.fetchRun db retmode ids false remote2 st1 =
      (st2, f2, ff2, n2) := by
    cases ids with
    | nil => exact absurd rfl hne
    | cons a as => simpa [Papers.Entrez.fetch] using hrun2
  simp only [Papers.Entrez.fetchRun] at hrun1' hrun2'
  have hst1 := (congrArg Prod.fst hrun1').symm
  have hf1 := (congrArg (fun p => p.2.1) hrun1').symm
  have hf2 := (congrArg (fun p => p.2.1) hrun2').symm
  simp only at hst1 hf1 hf2
  -- run-1 bookkeeping
  have hnd1 : f1.Nodup := by rw [hf1]; exact hnd.filter _
  have hnd2 : f2.Nodup := by rw [hf2]; exact hnd.filter _
  -- an id fetched in run 1 is not fetched in run 2
  have hdisj : ∀ id ∈ f1, id ∉ f2 := by
    intro id hid1
    rw [hf1] at hid1
    have hmem : id ∈ ids := (List.mem_filter.1 hid1).1
    obtain ⟨hiddot, hidocc⟩ := hids id hmem
    have hjoin := Papers.Entrez.chunk_list_join
      (ids.filter (fun i => decide (i ∉ Papers.Entrez.downloadedIds db retmode st0.files ∧
        i ∉ st0.ledger.getD ∅))) 100 (by decide)
    have hbatch : ∃ b ∈ Papers.Entrez.chunk_list
        (ids.filter (fun i => decide (i ∉ Papers.Entrez.downloadedIds db retmode st0.files ∧
          i ∉ st0.ledger.getD ∅))) 100, id ∈ b := by
      rw [← hjoin] at hid1
      exact List.mem_join.1 hid1
    intro hid2
    rw [hf2] at hid2
    have hp2 := of_decide_eq_true (List.mem_filter.1 hid2).2
    by_cases hr : remote1 id = true
    · -- run 1 downloaded the file, so run 2 sees it as downloaded
      have hfile : Papers.Entrez.fetchFileName db retmode id ∈ st1.files := by
        rw [hst1]
        exact Papers.Entrez.foldl_processBatch_file_written hr _ _ hbatch
      exact hp2.1 (Papers.Entrez.mem_downloadedIds hfile hdb hiddot hidocc)
    · -- run 1 recorded the failure; run 2 reads it from the ledger
      have hr' : remote1 id = false := by
        cases h : remote1 id
        · rfl
        · exact absurd h hr
      have hfailed : id ∈ ((Papers.Entrez.chunk_list
          (ids.filter (fun i => decide (i ∉ Papers.Entrez.downloadedIds db retmode st0.files ∧
            i ∉ st0.ledger.getD ∅))) 100).foldl
          (Papers.Entrez.processBatch db retmode false remote1)
          { files := st0.files, failed := st0.ledger.getD ∅, ledger := st0.ledger,
            processed := 0 }).failed :=
        Papers.Entrez.foldl_processBatch_failed_false hr' _ _ (Or.inl hbatch)
      have hledger : st1.ledger = some ((Papers.Entrez.chunk_list
          (ids.filter (fun i => decide (i ∉ Papers.Entrez.downloadedIds db retmode st0.files ∧
            i ∉ st0.ledger.getD ∅))) 100).foldl
          (Papers.Entrez.processBatch db retmode false remote1)
          { files := st0.files, failed := st0.ledger.getD ∅, ledger := st0.ledger,
            processed := 0 }).failed := by
        rw [hst1]
        exact Papers.Entrez.foldl_processBatch_ledger db retmode false remote1 _ _
          (Papers.Entrez.chunk_list_ne_nil _ 100 (by decide)
            (List.ne_nil_of_mem (by rw [← hf1] at hid1; rw [hf1] at hid1; exact hid1)))
          ⟨id, hfailed⟩
      refine hp2.2 ?_
      rw [hledger]
      simpa using hfailed
  refine ⟨?_, ?_⟩
  · rw [List.nodup_append]
    exact ⟨hnd1, hnd2, hdisj⟩
  · intro id hmem hfile hid1
    obtain ⟨hiddot, hidocc⟩ := hids id hmem
    rw [hf1] at hid1
    have hp1 := of_decide_eq_true (List.mem_filter.1 hid1).2
    exact hp1.1 (Papers.Entrez.mem_downloadedIds hfile hdb hiddot hidocc)

/-- Witness for C2 (amended): the single well-formed id `"1"` fetched twice
in sequence from an empty store — the first run downloads it, the second
recognises the file and fetches nothing, so no id is fetched twice. -/
theorem C2_at_most_one_download_across_runs_witness :
    (([['1']] : List (List Char)) ++ ([] : List (List Char))).Nodup :=
  (C2_at_most_one_download_across_runs "pmc".toList "xml".toList none none
    [['1']] (fun _ => true) (fun _ => true)
    { files := ∅, ledger := none }
    { files := {"pmc_1.xml".toList}, ledger := none }
    { files := {"pmc_1.xml".toList}, ledger := none }
    [['1']] [] ∅ ∅ 1 0
    (by decide) (by decide) (by decide) (by decide) (by rfl) (by rfl)).1

/-! ## Claim C9 — unknown `doc_type` values abort before converting -/

/-- C9 (confirmed): for every `doc_type` outside the five known values,
`convert_all` propagates the `UnboundLocalError` from
`_get_pending_files` (where the local `output_dir` is read without ever
being assigned) before any file is converted — the run aborts with an
error, touching no state; and for the three paper variants the pending set
convert_all processes is computed against the paper directory. -/
theorem C9_unknown_doc_type_aborts (parse : List Char → Except String Doc.Elem)
    (st : Converter.ConvSt) (format doc_type : String) (remove_existing : Bool) :
    (doc_type ∉ (["paper", "paper_with_metadata", "paper_without_metadata", "author",
        "references"] : List String) →
      Converter.convert_all parse st format doc_type remove_existing =
        .error "UnboundLocalError: local variable 'output_dir' referenced before assignment") ∧
    ((doc_type = "paper" ∨ doc_type = "paper_with_metadata" ∨
        doc_type = "paper_without_metadata") →
      ∀ r, Converter.convert_all parse st format doc_type false = .ok r →
        r.attempted = (Converter.paperPending st format).length) := by
  constructor
  · intro h
    simp only [List.mem_cons, List.mem_singleton, not_or] at h
    obtain ⟨h1, h2, h3, h4, h5⟩ := h
    simp [Converter.convert_all, Converter._get_pending_files, h1, h2, h3, h4, h5]
  · intro hdt r hr
    have hcheck : (if doc_type = "paper_with_metadata" ∨ doc_type = "paper_without_metadata" ∨
        doc_type = "paper" then "paper" else doc_type) = "paper" := by
      rcases hdt with h | h | h <;> simp [h]
    have hpend : Converter._get_pending_files st format false "paper" =
        .ok (st, Converter.paperPending st format) := rfl
    simp only [Converter.convert_all, hcheck, hpend] at hr
    rw [Except.ok.injEq] at hr
    rw [← hr]

/-- Witness for C9: `doc_type = "body"` aborts with the unbound-variable
error; `doc_type = "paper_with_metadata"` over one source file with an
empty paper directory processes exactly the one pending file computed
against the paper directory. -/
theorem C9_unknown_doc_type_aborts_witness :
    Converter.convert_all (fun _ => .error "parse error")
        { xmlDir := ["a.xml".toList], paperDir := [], authorDir := [], referencesDir := [] }
        "txt" "body" false =
      .error "UnboundLocalError: local variable 'output_dir' referenced before assignment" ∧
    (1 : Nat) = (Converter.paperPending
        { xmlDir := ["a.xml".toList], paperDir := [], authorDir := [], referencesDir := [] }
        "txt").length := by
  constructor
  · exact (C9_unknown_doc_type_aborts (fun _ => .error "parse error")
      { xmlDir := ["a.xml".toList], paperDir := [], authorDir := [], referencesDir := [] }
      "txt" "body" false).1 (by decide)
  · exact (C9_unknown_doc_type_aborts (fun _ => .error "parse error")
      { xmlDir := ["a.xml".toList], paperDir := [], authorDir := [], referencesDir := [] }
      "txt" "paper_with_metadata" false).2 (Or.inr (Or.inl rfl))
      { state := { xmlDir := ["a.xml".toList], paperDir := [], authorDir := [],
                   referencesDir := [] },
        attempted := 1, errors := 1 } (by rfl)

/-! ## Claim C6 — per-file failure isolation during conversion -/

namespace Doc

/-- A document whose `pub-date` has a `<year/>` element with no text:
`get_publication_date` appends `None` to `date_parts` and the
`"-".join` raises `TypeError`.  Parsing succeeds; rendering raises. -/
def badYearDoc : Elem :=
  el "article" [] none [el "pub-date" [] none [el "year" [] none []]]

end Doc

/-- C6, claim as stated, refuted on its "no partial output file" part: for
`format="txt"` the source opens the output file (creating/truncating it)
*before* the renderer runs (`save_to_file`, `src/papers/doc.py`, lines
476-478), so when `authors_to_text` raises — here a `TypeError` from a
`<year/>` with no text — an empty `a.txt` remains on disk for the failed
item, while the error is caught and counted. -/
theorem C6_counterexample :
    Converter.convert_all
        (fun f => if f = "a.xml".toList then .ok Doc.badYearDoc else .error "unexpected file")
        { xmlDir := ["a.xml".toList], paperDir := [], authorDir := [], referencesDir := [] }
        "txt" "author" false =
      .ok { state := { xmlDir := ["a.xml".toList], paperDir := [],
                       authorDir := [("a.txt".toList, "")], referencesDir := [] },
            attempted := 1, errors := 1 } := by
  rfl

/-- C6 (amended): a failure while converting one source file is caught and
does not abort the run — for every `doc_type` among the five known values
`convert_all` returns normally, every pending file being processed; a
*parse* failure leaves the state untouched (no partial output file); but a
txt-render failure (the `author` renderer can raise) occurs *after* the
output file has been opened, leaving an empty output file behind for the
failed item. -/
theorem C6_failure_isolation (parse : List Char → Except String Doc.Elem)
    (st : Converter.ConvSt) (format doc_type : String) (remove_existing : Bool) :
    (doc_type ∈ (["paper", "paper_with_metadata", "paper_without_metadata", "author",
        "references"] : List String) →
      (Converter.convert_all parse st format doc_type remove_existing).isOk = true) ∧
    (∀ f e, parse f = .error e →
      Converter.convertOne parse format doc_type st f = (st, some e)) ∧
    (∀ f doc e, parse f = .ok doc → Doc.authors_to_text doc = .error e →
      Converter.convertOne parse "txt" "author" st f =
        (st.write .author (Converter.stemOf f ++ '.' :: "txt".toList) "", some e)) := by
  refine ⟨?_, ?_, ?_⟩
  · intro hdt
    simp only [List.mem_cons, List.mem_singleton, List.not_mem_nil, or_false] at hdt
    rcases hdt with rfl | rfl | rfl | rfl | rfl <;> cases remove_existing <;> rfl
  · intro f e hparse
    unfold Converter.convertOne
    rw [hparse]
  · intro f doc e hparse hrender
    unfold Converter.convertOne
    rw [hparse]
    show Converter.save_to_file st .author (Converter.stemOf f ++ '.' :: "txt".toList)
      "author" "txt" doc = _
    unfold Converter.save_to_file
    show (let st1 := st.write .author (Converter.stemOf f ++ '.' :: "txt".toList) ""
          match Doc.authors_to_text doc with
          | .ok s => (st1.write .author (Converter.stemOf f ++ '.' :: "txt".toList) s, none)
          | .error e => (st1, some e)) = _
    rw [hrender]

/-- Witness for C6 (amended): `doc_type = "author"`, one parseable file with
a text-less `<year/>` (render raises after the file is opened) and one
unparseable file (nothing written). -/
theorem C6_failure_isolation_witness :
    (Converter.convert_all
        (fun f => if f = "a.xml".toList then .ok Doc.badYearDoc else .error "unexpected file")
        { xmlDir := ["a.xml".toList], paperDir := [], authorDir := [], referencesDir := [] }
        "txt" "author" false).isOk = true ∧
    Converter.convertOne
        (fun f => if f = "a.xml".toList then .ok Doc.badYearDoc else .error "unexpected file")
        "txt" "author"
        { xmlDir := ["a.xml".toList], paperDir := [], authorDir := [], referencesDir := [] }
        "b.xml".toList =
      ({ xmlDir := ["a.xml".toList], paperDir := [], authorDir := [], referencesDir := [] },
        some "unexpected file") ∧
    Converter.convertOne
        (fun f => if f = "a.xml".toList then .ok Doc.badYearDoc else .error "unexpected file")
        "txt" "author"
        { xmlDir := ["a.xml".toList], paperDir := [], authorDir := [], referencesDir := [] }
        "a.xml".toList =
      (Converter.ConvSt.write
          { xmlDir := ["a.xml".toList], paperDir := [], authorDir := [], referencesDir := [] }
          .author (Converter.stemOf "a.xml".toList ++ '.' :: "txt".toList) "",
        some "TypeError: sequence item: expected str instance, NoneType found") := by
  have h := C6_failure_isolation
    (fun f => if f = "a.xml".toList then .ok Doc.badYearDoc else .error "unexpected file")
    { xmlDir := ["a.xml".toList], paperDir := [], authorDir := [], referencesDir := [] }
    "txt" "author" false
  exact ⟨h.1 (by decide), h.2.1 "b.xml".toList "unexpected file" (by rfl),
    h.2.2 "a.xml".toList Doc.badYearDoc
      "TypeError: sequence item: expected str instance, NoneType found" (by rfl) (by rfl)⟩

/-! ## Converter lemmas (claim C3) -/

/-- `dropWhile` passes over a block that satisfies the predicate. -/
theorem dropWhile_append_all (p : Char → Bool) :
    ∀ (l₁ l₂ : List Char), (∀ c ∈ l₁, p c = true) →
      (l₁ ++ l₂).dropWhile p = l₂.dropWhile p := by
  intro l₁
  induction l₁ with
  | nil => intro l₂ _; rfl
  | cons c l₁ ih =>
    intro l₂ hall
    simp only [List.cons_append, List.dropWhile_cons, hall c (List.mem_cons_self c l₁), if_true]
    exact ih l₂ (fun c' hc' => hall c' (List.mem_cons_of_mem c hc'))

namespace Converter

/-- The stem of an artifact filename `{stem}.{ext}` is the stem, for a
nonempty stem and a dot-free extension. -/
theorem stemOf_artifact (s ext : List Char) (hs : s ≠ []) (hext : '.' ∉ ext) :
    stemOf (s ++ '.' :: ext) = s := by
  unfold stemOf
  have hrev : (s ++ '.' :: ext).reverse = ext.reverse ++ '.' :: s.reverse := by
    simp
  rw [hrev]
  have hall : ∀ c ∈ ext.reverse, (fun x => decide (x ≠ '.')) c = true := by
    intro c hc
    exact decide_eq_true (fun hEq => hext (hEq ▸ (List.mem_reverse.1 hc)))
  rw [dropWhile_append_all (fun x => decide (x ≠ '.')) ext.reverse ('.' :: s.reverse) hall]
  simp only [List.dropWhile_cons]
  rw [if_neg (by decide)]
  cases hsr : s.reverse with
  | nil =>
    exact absurd (by simpa using congrArg List.reverse hsr) hs
  | cons x xs =>
    simp only [List.tail_cons]
    rw [← hsr]
    simp

/-- An artifact filename matches the glob for its extension. -/
theorem globExt_artifact (s ext : List Char) : globExt ext (s ++ '.' :: ext) = true := by
  unfold globExt
  rw [List.isSuffixOf_iff_suffix]
  exact List.suffix_append s ('.' :: ext)

/-- Writing keeps every existing filename present. -/
theorem writeEntry_mem_mono {dir : List (List Char × String)} {x : List Char}
    (g : List Char) (c : String) (hx : x ∈ dir.map Prod.fst) :
    x ∈ (writeEntry dir g c).map Prod.fst := by
  unfold writeEntry
  by_cases h : (dir.map Prod.fst).contains g = true
  · rw [if_pos h]
    rcases List.mem_map.1 hx with ⟨p, hp, rfl⟩
    refine List.mem_map.2 ?_
    by_cases hpg : p.1 = g
    · exact ⟨(g, c), List.mem_map.2 ⟨p, hp, by simp [hpg]⟩, by simp [hpg]⟩
    · exact ⟨p, List.mem_map.2 ⟨p, hp, by simp [hpg]⟩, rfl⟩
  · rw [if_neg h]
    simp only [List.map_append]
    exact List.mem_append.2 (Or.inl hx)

/-- Writing puts the written filename on disk. -/
theorem writeEntry_mem_self (dir : List (List Char × String)) (g : List Char) (c : String) :
    g ∈ (writeEntry dir g c).map Prod.fst := by
  unfold writeEntry
  by_cases h : (dir.map Prod.fst).contains g = true
  · rw [if_pos h]
    have hg : g ∈ dir.map Prod.fst := by simpa using h
    rcases List.mem_map.1 hg with ⟨p, hp, hpg⟩
    refine List.mem_map.2 ⟨(g, c), List.mem_map.2 ⟨p, hp, by simp [hpg]⟩, rfl⟩
  · rw [if_neg h]
    simp

/-- `ConvSt.write` leaves the XML source directory untouched. -/
theorem ConvSt.write_xmlDir (st : ConvSt) (d : DirKind) (g : List Char) (c : String) :
    (st.write d g c).xmlDir = st.xmlDir := by
  cases d <;> rfl

/-- `ConvSt.write` keeps every existing filename present, in every
directory. -/
theorem ConvSt.write_mem_mono (st : ConvSt) (d d' : DirKind) (g : List Char) (c : String)
    {x : List Char} (hx : x ∈ (st.dir d').map Prod.fst) :
    x ∈ ((st.write d g c).dir d').map Prod.fst := by
  cases d <;> cases d' <;>
    first
      | exact writeEntry_mem_mono g c hx
      | exact hx

/-- `ConvSt.write` puts the written filename in the target directory. -/
theorem ConvSt.write_mem_self (st : ConvSt) (d : DirKind) (g : List Char) (c : String) :
    g ∈ ((st.write d g c).dir d).map Prod.fst := by
  cases d <;> exact writeEntry_mem_self _ g c

/-- `save_to_file` never touches the XML source directory (known
`doc_type`/`format` values). -/
theorem save_to_file_xmlDir (st : ConvSt) (d : DirKind) (g : List Char) (doc : Doc.Elem)
    {format doc_type : String}
    (hfmt : format = "txt" ∨ format = "json")
    (hdt : doc_type ∈ (["paper", "paper_with_metadata", "paper_without_metadata", "author",
      "references"] : List String)) :
    ((save_to_file st d g doc_type format doc).1).xmlDir = st.xmlDir := by
  simp only [List.mem_cons, List.mem_singleton, List.not_mem_nil, or_false] at hdt
  rcases hfmt with rfl | rfl
  · rcases hdt with rfl | rfl | rfl | rfl | rfl
    · simp [save_to_file, ConvSt.write_xmlDir]
    · simp [save_to_file, ConvSt.write_xmlDir]
    · simp [save_to_file, ConvSt.write_xmlDir]
    · rcases h : Doc.authors_to_text doc with e | s
      · simp [save_to_file, h, ConvSt.write_xmlDir]
      · simp [save_to_file, h, ConvSt.write_xmlDir]
    · simp [save_to_file, ConvSt.write_xmlDir]
  · rcases hdt with rfl | rfl | rfl | rfl | rfl
    · rcases h : Doc.paper_to_json doc with e | j
      · simp [save_to_file, h, Except.map]
      · simp [save_to_file, h, Except.map, ConvSt.write_xmlDir]
    · rcases h : Doc.paper_to_json doc true true with e | j
      · simp [save_to_file, h, Except.map]
      · simp [save_to_file, h, Except.map, ConvSt.write_xmlDir]
    · rcases h : Doc.paper_to_json doc false false with e | j
      · simp [save_to_file, h, Except.map]
      · simp [save_to_file, h, Except.map, ConvSt.write_xmlDir]
    · rcases h : Doc.authors_to_json doc with e | j
      · simp [save_to_file, h, Except.map]
      · simp [save_to_file, h, Except.map, ConvSt.write_xmlDir]
    · simp [save_to_file, ConvSt.write_xmlDir]

/-- `save_to_file` keeps every existing filename present (known
`doc_type`/`format` values). -/
theorem save_to_file_mem_mono (st : ConvSt) (d d' : DirKind) (g : List Char) (doc : Doc.Elem)
    {format doc_type : String} {x : List Char}
    (hfmt : format = "txt" ∨ format = "json")
    (hdt : doc_type ∈ (["paper", "paper_with_metadata", "paper_without_metadata", "author",
      "references"] : List String))
    (hx : x ∈ (st.dir d').map Prod.fst) :
    x ∈ (((save_to_file st d g doc_type format doc).1).dir d').map Prod.fst := by
  simp only [List.mem_cons, List.mem_singleton, List.not_mem_nil, or_false] at hdt
  rcases hfmt with rfl | rfl
  · rcases hdt with rfl | rfl | rfl | rfl | rfl
    · simpa [save_to_file] using ConvSt.write_mem_mono st d d' g _ hx
    · simpa [save_to_file] using ConvSt.write_mem_mono st d d' g _ hx
    · simpa [save_to_file] using ConvSt.write_mem_mono st d d' g _ hx
    · rcases h : Doc.authors_to_text doc with e | s
      · simpa [save_to_file, h] using ConvSt.write_mem_mono st d d' g "" hx
      · simpa [save_to_file, h] using
          ConvSt.write_mem_mono _ d d' g s (ConvSt.write_mem_mono st d d' g "" hx)
    · simpa [save_to_file] using ConvSt.write_mem_mono st d d' g _ hx
  · rcases hdt with rfl | rfl | rfl | rfl | rfl
    · rcases h : Doc.paper_to_json doc with e | j
      · simpa [save_to_file, h, Except.map] using hx
      · simpa [save_to_file, h, Except.map] using ConvSt.write_mem_mono st d d' g _ hx
    · rcases h : Doc.paper_to_json doc true true with e | j
      · simpa [save_to_file, h, Except.map] using hx
      · simpa [save_to_file, h, Except.map] using ConvSt.write_mem_mono st d d' g _ hx
    · rcases h : Doc.paper_to_json doc false false with e | j
      · simpa [save_to_file, h, Except.map] using hx
      · simpa [save_to_file, h, Except.map] using ConvSt.write_mem_mono st d d' g _ hx
    · rcases h : Doc.authors_to_json doc with e | j
      · simpa [save_to_file, h, Except.map] using hx
      · simpa [save_to_file, h, Except.map] using ConvSt.write_mem_mono st d d' g _ hx
    · simpa [save_to_file] using ConvSt.write_mem_mono st d d' g _ hx

/-- When `save_to_file` reports no error (known `doc_type`/`format`), the
artifact file is present in the target directory afterwards. -/
theorem save_to_file_written (st : ConvSt) (d : DirKind) (g : List Char) (doc : Doc.Elem)
    {format doc_type : String}
    (hfmt : format = "txt" ∨ format = "json")
    (hdt : doc_type ∈ (["paper", "paper_with_metadata", "paper_without_metadata", "author",
      "references"] : List String))
    (herr : (save_to_file st d g doc_type format doc).2 = none) :
    g ∈ (((save_to_file st d g doc_type format doc).1).dir d).map Prod.fst := by
  simp only [List.mem_cons, List.mem_singleton, List.not_mem_nil, or_false] at hdt
  rcases hfmt with rfl | rfl
  · rcases hdt with rfl | rfl | rfl | rfl | rfl
    · simpa [save_to_file] using ConvSt.write_mem_self st d g _
    · simpa [save_to_file] using ConvSt.write_mem_self st d g _
    · simpa [save_to_file] using ConvSt.write_mem_self st d g _
    · rcases h : Doc.authors_to_text doc with e | s
      · simp [save_to_file, h] at herr
      · simpa [save_to_file, h] using ConvSt.write_mem_self (st.write d g "") d g s
    · simpa [save_to_file] using ConvSt.write_mem_self st d g _
  · rcases hdt with rfl | rfl | rfl | rfl | rfl
    · rcases h : Doc.paper_to_json doc with e | j
      · simp [save_to_file, h, Except.map] at herr
      · simpa [save_to_file, h, Except.map] using ConvSt.write_mem_self st d g "json"
    · rcases h : Doc.paper_to_json doc true true with e | j
      · simp [save_to_file, h, Except.map] at herr
      · simpa [save_to_file, h, Except.map] using ConvSt.write_mem_self st d g "json"
    · rcases h : Doc.paper_to_json doc false false with e | j
      · simp [save_to_file, h, Except.map] at herr
      · simpa [save_to_file, h, Except.map] using ConvSt.write_mem_self st d g "json"
    · rcases h : Doc.authors_to_json doc with e | j
      · simp [save_to_file, h, Except.map] at herr
      · simpa [save_to_file, h, Except.map] using ConvSt.write_mem_self st d g "json"
    · simpa [save_to_file] using ConvSt.write_mem_self st d g "json"

/-- `convertOne` on a file whose parse fails leaves the state untouched. -/
theorem convertOne_parse_error (parse : List Char → Except String Doc.Elem)
    (format doc_type : String) (st : ConvSt) (f : List Char) {e : String}
    (hparse : parse f = .error e) :
    convertOne parse format doc_type st f = (st, some e) := by
  unfold convertOne
  rw [hparse]

/-- `convertOne` with a known `doc_type` dispatches to `save_to_file` on the
directory `convDir doc_type`. -/
theorem convertOne_parse_ok (parse : List Char → Except String Doc.Elem)
    (format : String) {doc_type : String} (st : ConvSt) (f : List Char) {doc : Doc.Elem}
    (hdt : doc_type ∈ (["paper", "paper_with_metadata", "paper_without_metadata", "author",
      "references"] : List String))
    (hparse : parse f = .ok doc) :
    convertOne parse format doc_type st f =
      save_to_file st (convDir doc_type) (stemOf f ++ '.' :: format.toList) doc_type format
        doc := by
  simp only [List.mem_cons, List.mem_singleton, List.not_mem_nil, or_false] at hdt
  rcases hdt with rfl | rfl | rfl | rfl | rfl <;>
    · unfold convertOne
      rw [hparse]
      rfl

/-- `convertOne` never touches the XML source directory. -/
theorem convertOne_xmlDir (parse : List Char → Except String Doc.Elem)
    {format doc_type : String} (st : ConvSt) (f : List Char)
    (hfmt : format = "txt" ∨ format = "json")
    (hdt : doc_type ∈ (["paper", "paper_with_metadata", "paper_without_metadata", "author",
      "references"] : List String)) :
    ((convertOne parse format doc_type st f).1).xmlDir = st.xmlDir := by
  rcases hp : parse f with e | doc
  · rw [convertOne_parse_error parse format doc_type st f hp]
  · rw [convertOne_parse_ok parse format st f hdt hp]
    exact save_to_file_xmlDir st _ _ doc hfmt hdt

/-- `convertOne` keeps every existing filename present. -/
theorem convertOne_mem_mono (parse : List Char → Except String Doc.Elem)
    {format doc_type : String} (st : ConvSt) (f : List Char) (d' : DirKind) {x : List Char}
    (hfmt : format = "txt" ∨ format = "json")
    (hdt : doc_type ∈ (["paper", "paper_with_metadata", "paper_without_metadata", "author",
      "references"] : List String))
    (hx : x ∈ (st.dir d').map Prod.fst) :
    x ∈ (((convertOne parse format doc_type st f).1).dir d').map Prod.fst := by
  rcases hp : parse f with e | doc
  · rw [convertOne_parse_error parse format doc_type st f hp]
    exact hx
  · rw [convertOne_parse_ok parse format st f hdt hp]
    exact save_to_file_mem_mono st _ d' _ doc hfmt hdt hx

/-- When `convertOne` reports no error, the artifact for the file is present
in the target directory. -/
theorem convertOne_written (parse : List Char → Except String Doc.Elem)
    {format doc_type : String} (st : ConvSt) (f : List Char)
    (hfmt : format = "txt" ∨ format = "json")
    (hdt : doc_type ∈ (["paper", "paper_with_metadata", "paper_without_metadata", "author",
      "references"] : List String))
    (herr : (convertOne parse format doc_type st f).2 = none) :
    (stemOf f ++ '.' :: format.toList) ∈
      (((convertOne parse format doc_type st f).1).dir (convDir doc_type)).map Prod.fst := by
  rcases hp : parse f with e | doc
  · rw [convertOne_parse_error parse format doc_type st f hp] at herr
    exact absurd herr (by simp)
  · rw [convertOne_parse_ok parse format st f hdt hp] at herr ⊢
    exact save_to_file_written st _ _ doc hfmt hdt herr

/-- `convert_all` with a known `doc_type` and `remove_existing = false`
processes exactly the pending set of `convDir doc_type`. -/
theorem convert_all_known (parse : List Char → Except String Doc.Elem) (st : ConvSt)
    {format doc_type : String}
    (hdt : doc_type ∈ (["paper", "paper_with_metadata", "paper_without_metadata", "author",
      "references"] : List String)) :
    convert_all parse st format doc_type false =
      .ok { state := ((pendingFor st format (convDir doc_type)).foldl
              (convStep parse format doc_type) (st, 0)).1,
            attempted := (pendingFor st format (convDir doc_type)).length,
            errors := ((pendingFor st format (convDir doc_type)).foldl
              (convStep parse format doc_type) (st, 0)).2 } := by
  simp only [List.mem_cons, List.mem_singleton, List.not_mem_nil, or_false] at hdt
  rcases hdt with rfl | rfl | rfl | rfl | rfl <;> rfl

/-- The error count of the conversion fold never decreases. -/
theorem foldl_convStep_errors_mono (parse : List Char → Except String Doc.Elem)
    (format doc_type : String) :
    ∀ (l : List (List Char)) (st : ConvSt) (n : Nat),
      n ≤ (l.foldl (convStep parse format doc_type) (st, n)).2 := by
  intro l
  induction l with
  | nil => intro st n; exact le_refl n
  | cons f fs ih =>
    intro st n
    simp only [List.foldl_cons, convStep]
    have := ih (convertOne parse format doc_type st f).1
      (n + if (convertOne parse format doc_type st f).2.isSome then 1 else 0)
    omega

/-- The conversion fold never touches the XML source directory. -/
theorem foldl_convStep_xmlDir (parse : List Char → Except String Doc.Elem)
    {format doc_type : String}
    (hfmt : format = "txt" ∨ format = "json")
    (hdt : doc_type ∈ (["paper", "paper_with_metadata", "paper_without_metadata", "author",
      "references"] : List String)) :
    ∀ (l : List (List Char)) (st : ConvSt) (n : Nat),
      ((l.foldl (convStep parse format doc_type) (st, n)).1).xmlDir = st.xmlDir := by
  intro l
  induction l with
  | nil => intro st n; rfl
  | cons f fs ih =>
    intro st n
    simp only [List.foldl_cons, convStep]
    rw [ih]
    exact convertOne_xmlDir parse st f hfmt hdt

/-- The conversion fold keeps every existing filename present. -/
theorem foldl_convStep_mem_mono (parse : List Char → Except String Doc.Elem)
    {format doc_type : String} (d' : DirKind)
    (hfmt : format = "txt" ∨ format = "json")
    (hdt : doc_type ∈ (["paper", "paper_with_metadata", "paper_without_metadata", "author",
      "references"] : List String)) :
    ∀ (l : List (List Char)) (st : ConvSt) (n : Nat) {x : List Char},
      x ∈ (st.dir d').map Prod.fst →
      x ∈ (((l.foldl (convStep parse format doc_type) (st, n)).1).dir d').map Prod.fst := by
  intro l
  induction l with
  | nil => intro st n x hx; exact hx
  | cons f fs ih =>
    intro st n x hx
    simp only [List.foldl_cons, convStep]
    exact ih _ _ (convertOne_mem_mono parse st f d' hfmt hdt hx)

/-- If the conversion fold adds no errors, every processed file's artifact
is present in the target directory afterwards. -/
theorem foldl_convStep_written (parse : List Char → Except String Doc.Elem)
    {format doc_type : String}
    (hfmt : format = "txt" ∨ format = "json")
    (hdt : doc_type ∈ (["paper", "paper_with_metadata", "paper_without_metadata", "author",
      "references"] : List String)) :
    ∀ (l : List (List Char)) (st : ConvSt) (n : Nat),
      (l.foldl (convStep parse format doc_type) (st, n)).2 = n →
      ∀ f ∈ l, (stemOf f ++ '.' :: format.toList) ∈
        (((l.foldl (convStep parse format doc_type) (st, n)).1).dir
          (convDir doc_type)).map Prod.fst := by
  intro l
  induction l with
  | nil =>
    intro st n _ f hf
    exact absurd hf (List.not_mem_nil f)
  | cons g gs ih =>
    intro st n htot f hf
    simp only [List.foldl_cons, convStep] at htot ⊢
    have hmono := foldl_convStep_errors_mono parse format doc_type gs
      (convertOne parse format doc_type st g).1
      (n + if (convertOne parse format doc_type st g).2.isSome then 1 else 0)
    have hg0 : (if (convertOne parse format doc_type st g).2.isSome then 1 else 0) = 0 := by
      omega
    have herrg : (convertOne parse format doc_type st g).2 = none := by
      by_cases hs : (convertOne parse format doc_type st g).2.isSome
      · simp [hs] at hg0
      · simpa using hs
    have hacc : n + (if (convertOne parse format doc_type st g).2.isSome then 1 else 0) = n := by
      omega
    rcases List.mem_cons.1 hf with rfl | hfs
    · rw [hacc]
      refine foldl_convStep_mem_mono parse (convDir doc_type) hfmt hdt gs _ n ?_
      exact convertOne_written parse st f hfmt hdt herrg
    · rw [hacc]
      refine ih _ n ?_ f hfs
      rw [hacc] at htot
      exact htot

end Converter

/-! ## Claim C3 — second `convert_all` run is a no-op -/

/-- C3, claim as stated, refuted: a source file whose conversion *fails* in
the first run leaves no artifact, so the second run's pending set contains
it again — the second run performs a conversion attempt and reports an
error.  Here the single file `a.xml` fails to parse in both runs. -/
theorem C3_counterexample :
    (match Converter.convert_all (fun _ => .error "parse error")
        { xmlDir := ["a.xml".toList], paperDir := [], authorDir := [], referencesDir := [] }
        "txt" "paper" false with
     | .ok r1 =>
       (match Converter.convert_all (fun _ => .error "parse error") r1.state
           "txt" "paper" false with
        | .ok r2 => (r2.attempted, r2.errors)
        | .error _ => (0, 0))
     | .error _ => (0, 0)) = (1, 1) := by
  rfl

/-- C3 (amended): when the first `remove_existing=false` run over an
unchanged source directory reports **zero errors** (and the format is one
of `txt`/`json`, source stems nonempty), the second run's pending set is
empty: it performs zero conversions and reports zero errors.  When the
first run had failures, the failed stems are still pending and are
re-attempted — see the counterexample. -/
theorem C3_second_run_noop (parse : List Char → Except String Doc.Elem)
    (st : Converter.ConvSt) (format doc_type : String) (r1 r2 : Converter.ConvRes)
    (hfmt : format = "txt" ∨ format = "json")
    (hdt : doc_type ∈ (["paper", "paper_with_metadata", "paper_without_metadata", "author",
      "references"] : List String))
    (hstems : ∀ f ∈ st.xmlDir, Converter.stemOf f ≠ [])
    (hrun1 : Converter.convert_all parse st format doc_type false = .ok r1)
    (herr1 : r1.errors = 0)
    (hrun2 : Converter.convert_all parse r1.state format doc_type false = .ok r2) :
    r2.attempted = 0 ∧ r2.errors = 0 := by
  have hdot : '.' ∉ format.toList := by
    rcases hfmt with rfl | rfl <;> decide
  have h1 := @Converter.convert_all_known parse st format doc_type hdt
  rw [h1, Except.ok.injEq] at hrun1
  have hr1state : r1.state =
      ((Converter.pendingFor st format (Converter.convDir doc_type)).foldl
        (Converter.convStep parse format doc_type) (st, 0)).1 := by
    rw [← hrun1]
  have herrF : ((Converter.pendingFor st format (Converter.convDir doc_type)).foldl
      (Converter.convStep parse format doc_type) (st, 0)).2 = 0 := by
    rw [← hrun1] at herr1
    exact herr1
  -- every processed file's artifact is on disk afterwards
  have hart := Converter.foldl_convStep_written parse hfmt hdt
    (Converter.pendingFor st format (Converter.convDir doc_type)) st 0 herrF
  -- the XML directory is unchanged
  have hxml : (((Converter.pendingFor st format (Converter.convDir doc_type)).foldl
      (Converter.convStep parse format doc_type) (st, 0)).1).xmlDir = st.xmlDir :=
    Converter.foldl_convStep_xmlDir parse hfmt hdt _ st 0
  -- every source stem now has an artifact stem in the target directory
  have hkey : ∀ f ∈ st.xmlDir.filter (Converter.globExt "xml".toList),
      ((((((((Converter.pendingFor st format (Converter.convDir doc_type)).foldl
          (Converter.convStep parse format doc_type) (st, 0)).1).dir
            (Converter.convDir doc_type)).map Prod.fst).filter
          (Converter.globExt format.toList)).map Converter.stemOf).contains
        (Converter.stemOf f)) = true := by
    intro f hf
    by_cases hp : f ∈ Converter.pendingFor st format (Converter.convDir doc_type)
    · exact List.elem_eq_true_of_mem (List.mem_map.2
        ⟨Converter.stemOf f ++ '.' :: format.toList,
         List.mem_filter.2 ⟨hart f hp, Converter.globExt_artifact _ _⟩,
         Converter.stemOf_artifact _ _ (hstems f (List.mem_of_mem_filter hf)) hdot⟩)
    · have hcont : ((((st.dir (Converter.convDir doc_type)).map Prod.fst).filter
          (Converter.globExt format.toList)).map Converter.stemOf).contains
            (Converter.stemOf f) = true := by
        by_contra hcontra
        refine hp (List.mem_filter.2 ⟨hf, ?_⟩)
        cases h : ((((st.dir (Converter.convDir doc_type)).map Prod.fst).filter
            (Converter.globExt format.toList)).map Converter.stemOf).contains
              (Converter.stemOf f)
        · rfl
        · exact absurd h hcontra
      have hmem0 : Converter.stemOf f ∈ (((st.dir (Converter.convDir doc_type)).map
          Prod.fst).filter (Converter.globExt format.toList)).map Converter.stemOf :=
        List.mem_of_elem_eq_true hcont
      rcases List.mem_map.1 hmem0 with ⟨g, hgfil, hgstem⟩
      rcases List.mem_filter.1 hgfil with ⟨hgmem, hgglob⟩
      exact List.elem_eq_true_of_mem (List.mem_map.2 ⟨g, List.mem_filter.2
        ⟨Converter.foldl_convStep_mem_mono parse (Converter.convDir doc_type) hfmt hdt
          _ st 0 hgmem, hgglob⟩, hgstem⟩)
  -- hence the second pending set is empty
  have hpend2 : Converter.pendingFor
      (((Converter.pendingFor st format (Converter.convDir doc_type)).foldl
        (Converter.convStep parse format doc_type) (st, 0)).1) format
      (Converter.convDir doc_type) = [] := by
    set P := Converter.pendingFor st format (Converter.convDir doc_type) with hP
    unfold Converter.pendingFor
    rw [hxml]
    refine List.filter_eq_nil_iff.2 ?_
    intro f hf
    have hc := hkey f hf
    simp only [Bool.not_eq_true, hc, Bool.not_true]
  have h2 := @Converter.convert_all_known parse r1.state format doc_type hdt
  rw [h2, Except.ok.injEq] at hrun2
  rw [hr1state, hpend2] at hrun2
  constructor
  · rw [← hrun2]
    rfl
  · rw [← hrun2]
    rfl

/-- Witness for C3 (amended): one source file `a.xml` that converts
successfully in run 1 (result `⟨c3St1, 1, 0⟩`); run 2 attempts nothing and
reports no error. -/
theorem C3_second_run_noop_witness :
    (Converter.ConvRes.mk Converter.c3St1 0 0).attempted = 0 ∧
    (Converter.ConvRes.mk Converter.c3St1 0 0).errors = 0 :=
  C3_second_run_noop (fun _ => .ok Converter.c3Doc) Converter.c3St0 "txt" "paper"
    ⟨Converter.c3St1, 1, 0⟩ ⟨Converter.c3St1, 0, 0⟩
    (Or.inl rfl) (by decide) (by decide) (by rfl) rfl (by rfl)

end Papers
